import Mathlib

/-!
# CHIP-8 interpreter (`main.c`): shallow embedding and verified properties

The C program keeps the whole machine in global arrays and in locals of `main`.
Here the machine is one record `State`; arrays are total maps from indices to
values (an index outside the C array is undefined behaviour in C and is outside
what the theorems below speak about; bounds appear as hypotheses where a claim
depends on them).  Machine integers are natural numbers or integers with the
wrap-around written out (`% 256` for `Uint8`, `% 65536` for `Uint16`,
`% 4294967296` for `Uint32`).

One pass through the body of `while (running)` is `loopIteration`: `pollEvents`
(the `SDL_PollEvent` loop) followed by `step` (fetch, decode, `pc += 2`, and the
`switch (code)`).  The events of a poll and the value of `rand()` are inputs.
The timer thread body is `timerTick`.  Calls that do not touch the machine
(`SDL_UpdateWindowSurface`, `usleep`, `printf`, locking and unlocking
`timerLock`) do not appear.

Instructions are stated on `step`, for a machine whose memory holds the
instruction word at `pc`: `s.mem s.pc` is the first byte, `s.mem (s.pc + 1)` the
second.
-/

namespace Chip8

/-! ## Constants and helper macros -/

/-- Macro `#define SHIFT_USES_Y true` -/
def SHIFT_USES_Y : Bool := true

/-- Macro `#define CHANGE_I true` -/
def CHANGE_I : Bool := true

def PIXEL_SIZE : Nat := 16
def GRID_THICK : Nat := 2
def SCREEN_WIDTH : Nat := 64
def SCREEN_HEIGHT : Nat := 32

/-- Macro `#define _convertX(x) (((GRID_THICK) + (PIXEL_SIZE))*(x) + (GRID_THICK))` -/
def _convertX (x : Nat) : Nat := (GRID_THICK + PIXEL_SIZE) * x + GRID_THICK

/-- Macro `#define _convertY(y) (((GRID_THICK) + (PIXEL_SIZE))*(y) + (GRID_THICK))` -/
def _convertY (y : Nat) : Nat := (GRID_THICK + PIXEL_SIZE) * y + GRID_THICK

def MEMORY_SIZE : Nat := 4096
def MAX_STACK : Nat := 256
def N_REGISTERS : Nat := 16
def FONT_START : Nat := 0x50
def MAX_KEYPAD_KEYCODE : Nat := 33

/-- Macro `#define _nibble1(a) (((a)&(((1<<4)-1)<<4))>>4)` -/
def _nibble1 (a : Nat) : Nat := (a &&& (((1 <<< 4) - 1) <<< 4)) >>> 4

/-- Macro `#define _nibble2(a) ((a)&((1<<4)-1))` -/
def _nibble2 (a : Nat) : Nat := a &&& ((1 <<< 4) - 1)

/-- Global `Uint8 font[]`: 16 glyphs of 5 bytes. -/
def font : List Nat :=
  [0xF0, 0x90, 0x90, 0x90, 0xF0,
   0x20, 0x60, 0x20, 0x20, 0x70,
   0xF0, 0x10, 0xF0, 0x80, 0xF0,
   0xF0, 0x10, 0xF0, 0x10, 0xF0,
   0x90, 0x90, 0xF0, 0x10, 0x10,
   0xF0, 0x80, 0xF0, 0x10, 0xF0,
   0xF0, 0x80, 0xF0, 0x90, 0xF0,
   0xF0, 0x10, 0x20, 0x40, 0x40,
   0xF0, 0x90, 0xF0, 0x90, 0xF0,
   0xF0, 0x90, 0xF0, 0x10, 0xF0,
   0xF0, 0x90, 0xF0, 0x90, 0x90,
   0xE0, 0x90, 0xE0, 0x90, 0xE0,
   0xF0, 0x80, 0x80, 0x80, 0xF0,
   0xE0, 0x90, 0x90, 0x90, 0xE0,
   0xF0, 0x80, 0xF0, 0x80, 0xF0,
   0xF0, 0x80, 0xF0, 0x80, 0x80]

/-- Global `const int WINDOW_WIDTH = _convertX(SCREEN_WIDTH);` -/
def WINDOW_WIDTH : Nat := _convertX SCREEN_WIDTH

/-- Global `const int WINDOW_HEIGHT = _convertY(SCREEN_HEIGHT);` -/
def WINDOW_HEIGHT : Nat := _convertY SCREEN_HEIGHT

/-- Conversion of a C `int` to `Uint8` (reduction modulo 256). -/
def toUint8 (z : Int) : Nat := (z % 256).toNat

/-- A C loop `for (k = 0; k < n; k++) body`, for a bound `n` that the body does
not change: iteration `n - 1` runs last. -/
def forLoop {σ : Type} : Nat → (Nat → σ → σ) → σ → σ
  | 0, _, s => s
  | n + 1, body, s => body n (forLoop n body s)

/-! ## Machine state -/

/-- The globals of `main.c` together with the locals of `main` that live across
loop iterations (`held`, `pressed`, `running`). -/
structure State where
  /-- Field `Uint8 mem[MEMORY_SIZE]` -/
  mem : Nat → Nat
  /-- Field `Uint16 pc` -/
  pc : Nat
  /-- Field `Uint16 I` -/
  I : Nat
  /-- Field `Uint8 regs[N_REGISTERS]` -/
  regs : Nat → Nat
  /-- Field `Uint16 stack[MAX_STACK]` -/
  stack : Nat → Nat
  /-- Field `Uint8 sp` -/
  sp : Nat
  /-- Field `Uint32 grid[SCREEN_HEIGHT][SCREEN_WIDTH]`, indexed `grid y x` -/
  grid : Nat → Nat → Nat
  /-- Field `Uint32* pixels`, the window surface -/
  pixels : Nat → Nat
  /-- Field `volatile int delayTimer` -/
  delayTimer : Int
  /-- Field `volatile int soundTimer` -/
  soundTimer : Int
  /-- Field `bool held[16]` -/
  held : Nat → Bool
  /-- Field `bool pressed[16]` -/
  pressed : Nat → Bool
  /-- Field `int running` -/
  running : Bool

/-- The values every field can hold according to its C type. -/
structure State.InRange (s : State) : Prop where
  mem_lt : ∀ a, s.mem a < 256
  pc_lt : s.pc < 65536
  I_lt : s.I < 65536
  regs_lt : ∀ r, s.regs r < 256
  stack_lt : ∀ k, s.stack k < 65536
  sp_lt : s.sp < 256
  grid_lt : ∀ y x, s.grid y x < 4294967296

/-- Every cell of the bitmap is 0 or 1: true of the zero-initialised global
`grid` and kept by every instruction. -/
def State.IsBitmap (s : State) : Prop := ∀ y x, s.grid y x ≤ 1

/-! ## Display -/

/-- The two nested loops of `setPixel` that paint one `PIXEL_SIZE`-square block
of the window surface. -/
def fillBlock (start color : Nat) (pixels : Nat → Nat) : Nat → Nat :=
  forLoop PIXEL_SIZE (fun i p =>
    forLoop PIXEL_SIZE (fun j q =>
      Function.update q (start + i * WINDOW_WIDTH + j) color) p) pixels

/-- Function `void setPixel(int x, int y, Uint32 color)` -/
def setPixel (x y color : Nat) (s : State) : State :=
  let grid1 := Function.update s.grid y (Function.update (s.grid y) x color)
  let color1 := if color = 1 then 0xFFFFFFFF else color
  let start := _convertY y * WINDOW_WIDTH + _convertX x
  { s with grid := grid1, pixels := fillBlock start color1 s.pixels }

/-- The expression `1 - g` for a `Uint32` value `g` (unsigned 32-bit arithmetic). -/
def oneMinusU32 (g : Nat) : Nat := (4294967296 + 1 - g) % 4294967296

/-- Body of the inner loop of the draw instruction, column `i` of sprite row
`j`, for a sprite placed at `(x, y)`. -/
def drawPixel (x y j i : Nat) (s : State) : State :=
  if (s.mem (s.I + j) >>> (7 - i)) &&& 1 ≠ 0 then
    let s1 := if s.grid (y + j) (x + i) ≠ 0 then
        { s with regs := Function.update s.regs 0xF 1 } else s
    setPixel (x + i) (y + j) (oneMinusU32 (s1.grid (y + j) (x + i))) s1
  else s

/-- The inner loop of the draw instruction (`for (Uint8 i = 0; i < w; i++)`):
the first `w` columns of sprite row `j`. -/
def drawRow (x y w j : Nat) (s : State) : State :=
  forLoop w (fun i u => drawPixel x y j i u) s

/-- Handler of `case 0xD:` draw sprite (`0xDXYN`). -/
def opDraw (regX regY N : Nat) (s : State) : State :=
  let x := s.regs regX % SCREEN_WIDTH
  let y := s.regs regY % SCREEN_HEIGHT
  let s1 := { s with regs := Function.update s.regs 0xF 0 }
  forLoop (min (SCREEN_HEIGHT - y) N) (fun j t =>
    drawRow x y (min (SCREEN_WIDTH - x) 8) j t) s1

/-- Handler of `0x00E0`: clear screen. -/
def opClear (s : State) : State :=
  forLoop SCREEN_WIDTH (fun x t =>
    forLoop SCREEN_HEIGHT (fun y u => setPixel x y 0 u) t) s

/-- What a draw leaves alone: everything except the bitmap, the window surface
and the flag register. -/
structure DrawFrame (t u : State) : Prop where
  mem : u.mem = t.mem
  pc : u.pc = t.pc
  I : u.I = t.I
  regs : ∀ r, r ≠ 0xF → u.regs r = t.regs r
  stack : u.stack = t.stack
  sp : u.sp = t.sp
  delayTimer : u.delayTimer = t.delayTimer
  soundTimer : u.soundTimer = t.soundTimer
  held : u.held = t.held
  pressed : u.pressed = t.pressed
  running : u.running = t.running

/-- Cell `(r, c)` of the bitmap lies under a set bit of the `h`-row, `w`-column
part of the sprite at `mem[I..]` placed at `(x, y)`. -/
def SpriteCovers (s : State) (x y h w r c : Nat) : Prop :=
  y ≤ r ∧ r < y + h ∧ x ≤ c ∧ c < x + w ∧
    (s.mem (s.I + (r - y))).testBit (7 - (c - x)) = true

instance (s : State) (x y h w r c : Nat) : Decidable (SpriteCovers s x y h w r c) := by
  unfold SpriteCovers; infer_instance

/-- Some set bit of the `h`-row, `w`-column part of the sprite placed at
`(x, y)` lies on a non-zero cell of the bitmap. -/
def SpriteHits (s : State) (x y h w : Nat) : Prop :=
  ∃ j i, j < h ∧ i < w ∧ (s.mem (s.I + j)).testBit (7 - i) = true ∧
    s.grid (y + j) (x + i) ≠ 0

/-! ## Instructions -/

/-- Handler of `case 0:` -/
def op0 (NNN : Nat) (s : State) : State :=
  if NNN = 0x0E0 then opClear s
  else if NNN = 0x0EE then
    { s with pc := s.stack s.sp, sp := (s.sp + 256 - 1) % 256 }
  else s

/-- Handler of `case 2:` call (`stack[++sp] = pc; pc = NNN;`). -/
def op2 (NNN : Nat) (s : State) : State :=
  let sp1 := (s.sp + 1) % 256
  { s with sp := sp1, stack := Function.update s.stack sp1 s.pc, pc := NNN }

/-- Statement `pc += 2;` on a `Uint16`. -/
def skip (s : State) : State := { s with pc := (s.pc + 2) % 65536 }

/-- Handler of `case 8:` register-register operations, `switch (N)`. -/
def op8 (regX regY N : Nat) (s : State) : State :=
  if N = 0 then { s with regs := Function.update s.regs regX (s.regs regY) }
  else if N = 1 then
    { s with regs := Function.update s.regs regX (s.regs regX ||| s.regs regY) }
  else if N = 2 then
    { s with regs := Function.update s.regs regX (s.regs regX &&& s.regs regY) }
  else if N = 3 then
    { s with regs := Function.update s.regs regX (s.regs regX ^^^ s.regs regY) }
  else if N = 4 then
    let uans := s.regs regX + s.regs regY
    let r1 := Function.update s.regs regX (uans % 256)
    { s with regs := Function.update r1 0xF (if uans > 255 then 1 else 0) }
  else if N = 5 then
    let sans : Int := (s.regs regX : Int) - (s.regs regY : Int)
    let r1 := Function.update s.regs regX (toUint8 (Int.tmod (sans + 256) 256))
    { s with regs := Function.update r1 0xF (if sans ≥ 0 then 1 else 0) }
  else if N = 6 then
    let r1 := if SHIFT_USES_Y then Function.update s.regs regX (s.regs regY)
      else s.regs
    let r2 := Function.update r1 0xF (r1 regX &&& 1)
    { s with regs := Function.update r2 regX (r2 regX >>> 1) }
  else if N = 7 then
    let sans : Int := (s.regs regY : Int) - (s.regs regX : Int)
    let r1 := Function.update s.regs regX (toUint8 (Int.tmod (sans + 256) 256))
    { s with regs := Function.update r1 0xF (if sans ≥ 0 then 1 else 0) }
  else if N = 0xE then
    let r1 := if SHIFT_USES_Y then Function.update s.regs regX (s.regs regY)
      else s.regs
    let r2 := Function.update r1 0xF ((r1 regX >>> 7) &&& 1)
    { s with regs := Function.update r2 regX ((r2 regX <<< 1) % 256) }
  else s

/-- Handler of `case 0xE:` key tests, `switch (NN)`. -/
def opE (regX NN : Nat) (s : State) : State :=
  if NN = 0x9E then (if s.held (s.regs regX) then skip s else s)
  else if NN = 0xA1 then (if !s.held (s.regs regX) then skip s else s)
  else s

/-- The `while (tmp > 0)` loop of `case 0x33:`; returns `n_digits` and memory. -/
def bcdDigits (I : Nat) (tmp n_digits : Nat) (mem : Nat → Nat) : Nat × (Nat → Nat) :=
  if 0 < tmp then
    bcdDigits I (tmp / 10) ((n_digits + 1) % 256)
      (Function.update mem (I + n_digits) (tmp % 10))
  else (n_digits, mem)
termination_by tmp
decreasing_by exact Nat.div_lt_self (by assumption) (by decide)

/-- The "reverse digits in memory" loop of `case 0x33:`. -/
def bcdReverse (I n_digits : Nat) (mem : Nat → Nat) : Nat → Nat :=
  forLoop (n_digits / 2) (fun i m =>
    let tmp := m (I + i)
    let m1 := Function.update m (I + i) (m (I + n_digits - i - 1))
    Function.update m1 (I + n_digits - i - 1) tmp) mem

/-- Handler of `case 0x33:` -/
def opBcd (regX : Nat) (s : State) : State :=
  let r := bcdDigits s.I (s.regs regX) 0 s.mem
  { s with mem := bcdReverse s.I r.1 r.2 }

/-- Handler of `case 0x55:` -/
def opStore (regX : Nat) (s : State) : State :=
  let s1 := forLoop (regX + 1) (fun i (t : State) =>
    { t with mem := Function.update t.mem (t.I + i) (t.regs i) }) s
  if CHANGE_I then { s1 with I := (s1.I + (regX + 1)) % 65536 } else s1

/-- Handler of `case 0x65:` -/
def opLoad (regX : Nat) (s : State) : State :=
  let s1 := forLoop (regX + 1) (fun i (t : State) =>
    { t with regs := Function.update t.regs i (t.mem (t.I + i)) }) s
  if CHANGE_I then { s1 with I := (s1.I + (regX + 1)) % 65536 } else s1

/-- Handler of `case 0x15:` (also the code reached by falling out of `case 0x0A:`). -/
def opSetDelay (regX : Nat) (s : State) : State :=
  { s with delayTimer := (s.regs regX : Int) }

/-- What the loop body hands to the instruction: the two locals set by the
event poll, and the value returned by `rand()`. -/
structure Input where
  anyKeyPressed : Bool
  lastKey : Nat
  rnd : Nat

/-- Handler of `case 0xF:` miscellaneous instructions, `switch (NN)`. -/
def opF (inp : Input) (regX NN : Nat) (s : State) : State :=
  if NN = 0x07 then
    { s with regs := Function.update s.regs regX (toUint8 s.delayTimer) }
  else if NN = 0x0A then
    let s1 := if !inp.anyKeyPressed then { s with pc := (s.pc + 65536 - 2) % 65536 }
      else { s with regs := Function.update s.regs regX (inp.lastKey % 256) }
    opSetDelay regX s1
  else if NN = 0x15 then opSetDelay regX s
  else if NN = 0x18 then { s with soundTimer := (s.regs regX : Int) }
  else if NN = 0x1E then
    let uans := s.I + s.regs regX
    { s with I := uans &&& ((1 <<< 16) - 1),
             regs := Function.update s.regs 0xF (if uans ≥ 1 <<< 16 then 1 else 0) }
  else if NN = 0x29 then { s with I := FONT_START + 5 * _nibble1 (s.regs regX) }
  else if NN = 0x33 then opBcd regX s
  else if NN = 0x55 then opStore regX s
  else if NN = 0x65 then opLoad regX s
  else s

/-- The `switch (code)` of the loop body. -/
def execute (inp : Input) (code regX regY N NN NNN : Nat) (s : State) : State :=
  if code = 0 then op0 NNN s
  else if code = 1 then { s with pc := NNN }
  else if code = 2 then op2 NNN s
  else if code = 3 then (if s.regs regX = NN then skip s else s)
  else if code = 4 then (if s.regs regX ≠ NN then skip s else s)
  else if code = 5 then (if s.regs regX = s.regs regY then skip s else s)
  else if code = 6 then { s with regs := Function.update s.regs regX (NN % 256) }
  else if code = 7 then
    { s with regs := Function.update s.regs regX ((s.regs regX + NN) % 256) }
  else if code = 8 then op8 regX regY N s
  else if code = 9 then (if s.regs regX ≠ s.regs regY then skip s else s)
  else if code = 0xA then { s with I := NNN }
  else if code = 0xB then { s with pc := (NNN + s.regs 0) % 65536 }
  else if code = 0xC then
    { s with regs := Function.update s.regs regX (((inp.rnd % 256) % 256) &&& NN) }
  else if code = 0xD then opDraw regX regY N s
  else if code = 0xE then opE regX NN s
  else if code = 0xF then opF inp regX NN s
  else s

/-- Fetch and decode the instruction at `pc`, advance `pc` by 2, and execute. -/
def step (inp : Input) (s : State) : State :=
  let code := _nibble1 (s.mem s.pc)
  let regX := _nibble2 (s.mem s.pc)
  let regY := _nibble1 (s.mem (s.pc + 1))
  let N := _nibble2 (s.mem (s.pc + 1))
  let NN := s.mem (s.pc + 1)
  let NNN := (regX <<< 8) + NN
  execute inp code regX regY N NN NNN { s with pc := (s.pc + 2) % 65536 }

/-! ## Input poll and main loop -/

/-- Function `void initKeypad()` -/
def initKeypad (k0 : Nat → Nat) : Nat → Nat :=
  let k := Function.update k0 30 1
  let k := Function.update k 31 2
  let k := Function.update k 32 3
  let k := Function.update k 33 0xC
  let k := Function.update k 20 4
  let k := Function.update k 26 5
  let k := Function.update k 8 6
  let k := Function.update k 21 0xD
  let k := Function.update k 4 7
  let k := Function.update k 22 8
  let k := Function.update k 7 9
  let k := Function.update k 9 0xE
  let k := Function.update k 29 0xA
  let k := Function.update k 27 0
  let k := Function.update k 6 0xB
  Function.update k 25 0xF

/-- Global `Uint8 keypad[MAX_KEYPAD_KEYCODE+1]` after `initKeypad()` (a zero-initialised
global before it). The C array has the indices 0..`MAX_KEYPAD_KEYCODE`; an index
above that is a read past the array, undefined in C, and the 0 the map gives
there stands for nothing: statements about a key code carry
`sc ≤ MAX_KEYPAD_KEYCODE`. -/
def keypad : Nat → Nat := initKeypad (fun _ => 0)

/-- What `SDL_PollEvent` can deliver, as far as the loop looks at it. -/
inductive Event where
  | quit
  | keydown (scancode : Nat)
  | keyup (scancode : Nat)
  | other

/-- The event is an `SDL_KEYDOWN`. -/
def Event.isKeydown : Event → Bool
  | .keydown _ => true
  | _ => false

/-- What the event poll carries: the machine and the locals `anyKeyPressed` and
`lastKey`. -/
structure PollState where
  st : State
  anyKeyPressed : Bool
  lastKey : Nat

/-- Body of `while (SDL_PollEvent(&e))`: the `switch (e.type)`. -/
def handleEvent (p : PollState) (e : Event) : PollState :=
  match e with
  | .quit => { p with st := { p.st with running := false } }
  | .keydown sc =>
    { st := { p.st with held := Function.update p.st.held (keypad sc) true,
                        pressed := Function.update p.st.pressed (keypad sc) true },
      lastKey := keypad sc,
      anyKeyPressed := true }
  | .keyup sc =>
    { p with st := { p.st with held := Function.update p.st.held (keypad sc) false } }
  | .other => p

/-- The event poll at the top of the loop body. -/
def pollEvents (events : List Event) (s : State) : PollState :=
  events.foldl handleEvent { st := s, anyKeyPressed := false, lastKey := 0 }

/-- One pass through the body of `while (running)`: the events delivered during
the poll and the value `rand()` would return. -/
def loopIteration (events : List Event) (rnd : Nat) (s : State) : State :=
  let p := pollEvents events s
  step { anyKeyPressed := p.anyKeyPressed, lastKey := p.lastKey, rnd := rnd } p.st

/-- The `while (running)` loop, one list entry per pass: the loop is left as
soon as `running` is 0 at the top. -/
def runLoop : List (List Event × Nat) → State → State
  | [], s => s
  | (events, rnd) :: rest, s =>
    if s.running then runLoop rest (loopIteration events rnd s) else s

/-! ## Timers -/

/-- One pass of the body of `timerLoop` (the two guarded decrements). -/
def timerTick (s : State) : State :=
  let s1 := if s.delayTimer > 0 then { s with delayTimer := s.delayTimer - 1 } else s
  if s1.soundTimer > 0 then { s1 with soundTimer := s1.soundTimer - 1 } else s1

/-! ## Initialisation -/

/-- Function `void initMem()`: three `memset` calls; the third clears
`SCREEN_WIDTH * SCREEN_HEIGHT` bytes of the 4-byte cells of `grid`. -/
def initMem (s : State) : State :=
  { s with
    mem := fun a => if a < MEMORY_SIZE then 0 else s.mem a,
    regs := fun r => if r < N_REGISTERS then 0 else s.regs r,
    grid := fun y x =>
      if 4 * (y * SCREEN_WIDTH + x) < SCREEN_WIDTH * SCREEN_HEIGHT then 0
      else s.grid y x }

/-- Function `void initFont()`: `memcpy(mem, font, 50);` -/
def initFont (s : State) : State :=
  { s with mem := fun a => if a < 50 then font.getD a 0 else s.mem a }

/-- Function `void loadProgram(char* filename)`: `fread(mem+pc, 1, MEMORY_SIZE-pc, file)`
for a file whose bytes are `image`. -/
def loadProgram (image : List Nat) (s : State) : State :=
  { s with mem := fun a =>
      if s.pc ≤ a ∧ a < s.pc + min image.length (MEMORY_SIZE - s.pc) then
        image.getD (a - s.pc) 0
      else s.mem a }

/-! ## Decoded fields, unhandled words, and runs of instructions -/

/-- The locals `code`, `regX`, `regY`, `N`, `NN`, `NNN` of the loop body. -/
structure Decoded where
  code : Nat
  regX : Nat
  regY : Nat
  N : Nat
  NN : Nat
  NNN : Nat

/-- The six decode statements of the loop body, for `b0 = mem[pc]` and
`b1 = mem[pc+1]`. -/
def decode (b0 b1 : Nat) : Decoded :=
  { code := _nibble1 b0,
    regX := _nibble2 b0,
    regY := _nibble1 b1,
    N := _nibble2 b1,
    NN := b1,
    NNN := (_nibble2 b0 <<< 8) + b1 }

/-- The instruction words for which no `case` of the two-level `switch` has a
handler: class 0 other than `00E0` and `00EE`, class 8 with a low nibble outside
0..7 and 0xE, class 0xE other than `9E` and `A1`, class 0xF with a low byte that
is none of the nine handled ones. -/
def Unhandled (d : Decoded) : Prop :=
  (d.code = 0 ∧ d.NNN ≠ 0x0E0 ∧ d.NNN ≠ 0x0EE) ∨
  (d.code = 8 ∧ (d.N = 8 ∨ d.N = 9 ∨ d.N = 0xA ∨ d.N = 0xB ∨ d.N = 0xC ∨ d.N = 0xD ∨
    d.N = 0xF)) ∨
  (d.code = 0xE ∧ d.NN ≠ 0x9E ∧ d.NN ≠ 0xA1) ∨
  (d.code = 0xF ∧ d.NN ≠ 0x07 ∧ d.NN ≠ 0x0A ∧ d.NN ≠ 0x15 ∧ d.NN ≠ 0x18 ∧ d.NN ≠ 0x1E ∧
    d.NN ≠ 0x29 ∧ d.NN ≠ 0x33 ∧ d.NN ≠ 0x55 ∧ d.NN ≠ 0x65)

/-- What the event poll leaves alone: everything except `held`, `pressed` and
`running`. -/
structure PollFrame (s t : State) : Prop where
  mem : t.mem = s.mem
  pc : t.pc = s.pc
  I : t.I = s.I
  regs : t.regs = s.regs
  stack : t.stack = s.stack
  sp : t.sp = s.sp
  grid : t.grid = s.grid
  pixels : t.pixels = s.pixels
  delayTimer : t.delayTimer = s.delayTimer
  soundTimer : t.soundTimer = s.soundTimer

/-- Execute the instruction stored at address `A`: the loop body entered with
`pc = A`. -/
def stepAt (inp : Input) (A : Nat) (s : State) : State :=
  step inp { s with pc := A }

/-- Execute `n` instructions in a row, the `i`-th one being the instruction
stored at address `site i`. -/
def runAt (inp : Input) (site : Nat → Nat) (n : Nat) (s : State) : State :=
  forLoop n (fun i t => stepAt inp (site i) t) s

/-! ## Concrete machines used to exercise the theorems -/

/-- The machine as the C globals are initialised: everything zero, `pc = 0x200`. -/
def blank : State :=
  { mem := fun _ => 0, pc := 0x200, I := 0, regs := fun _ => 0,
    stack := fun _ => 0, sp := 0, grid := fun _ _ => 0, pixels := fun _ => 0,
    delayTimer := 0, soundTimer := 0, held := fun _ => false,
    pressed := fun _ => false, running := true }

/-- The blank machine with a program image loaded and some registers set. -/
def machine (image : List Nat) (regs : List Nat) : State :=
  { loadProgram image blank with regs := fun r => regs.getD r 0 }

/-- No key event in the poll, `rand()` returning 0. -/
def quiet : Input := { anyKeyPressed := false, lastKey := 0, rnd := 0 }

/-- Instruction `8124` with `V1 = 200`, `V2 = 100`. -/
def exAdd : State := machine [0x81, 0x24] [0, 200, 100]

/-- Instruction `8F04` with `V0 = 1`, `VF = 1`. -/
def exAddFlag : State := machine [0x8F, 0x04] [1, 0, 0, 0, 0, 0, 0, 0, 0, 0, 0, 0, 0, 0, 0, 1]

/-- Instruction `8125` with `V1 = 5`, `V2 = 7`. -/
def exSub : State := machine [0x81, 0x25] [0, 5, 7]

/-- Instruction `8F05` with `V0 = 2`, `VF = 5`. -/
def exSubFlag : State := machine [0x8F, 0x05] [2, 0, 0, 0, 0, 0, 0, 0, 0, 0, 0, 0, 0, 0, 0, 5]

/-- Instruction `F133` with `V1 = 45` and `I = 0x300`, the three bytes at `I` holding 1, 2, 3. -/
def exBcdShort : State :=
  { machine [0xF1, 0x33] [0, 45] with
    I := 0x300,
    mem := fun a =>
      if a = 0x300 then 1 else if a = 0x301 then 2 else if a = 0x302 then 3
      else (machine [0xF1, 0x33] [0, 45]).mem a }

/-- Instruction `F133` with `V1 = 123` and `I = 0x300`. -/
def exBcd : State := { machine [0xF1, 0x33] [0, 123] with I := 0x300 }

/-- The blank machine with the delay timer at 10 and the sound timer at 3. -/
def exTimers : State := { blank with delayTimer := 10, soundTimer := 3 }

/-- Instruction `B300` with `V0 = 5`. -/
def exJump : State := machine [0xB3, 0x00] [5]

/-- Instruction `F10A` at `pc = 0x200`, with `V1 = 9`. -/
def exAwait : State := machine [0xF1, 0x0A] [0, 9]

/-- Two copies of `D122` followed by the sprite bytes `C3 81`, with `I` at the
sprite, `V1 = 62`, `V2 = 31` (so the sprite is clipped to two columns of one
row) and the pixel at column 62 of row 31 already set. -/
def exDraw : State :=
  { machine [0xD1, 0x22, 0xD1, 0x22, 0xC3, 0x81] [0, 62, 31] with
    I := 0x204,
    grid := fun y x => if y = 31 ∧ x = 62 then 1 else 0 }

/-- Two copies of `D011` followed by the sprite byte `80`, with `I` at the
sprite, all registers 0 and the pixel at column 0 of row 0 already set. -/
def exDrawOn : State :=
  { machine [0xD0, 0x11, 0xD0, 0x11, 0x80] [] with
    I := 0x204,
    grid := fun y x => if y = 0 ∧ x = 0 then 1 else 0 }

/-- An unhandled word `8128` at `pc = 0x200`, with some registers and timers set. -/
def exUnhandled : State :=
  { machine [0x81, 0x28] [3, 4, 5] with delayTimer := 7, soundTimer := 2, I := 0x300 }

/-- Instruction `F129` with `V1 = 0x0A`. -/
def exFont : State := machine [0xF1, 0x29] [0, 0x0A]

/-- Instruction `F129` with `V1 = 0x1A`. -/
def exFontHigh : State := machine [0xF1, 0x29] [0, 0x1A]

/-- Instruction `8F16` with `V1 = 1`. -/
def exShr : State := machine [0x8F, 0x16] [0, 1]

/-- Instruction `8F1E` with `V1 = 0x80`. -/
def exShl : State := machine [0x8F, 0x1E] [0, 0x80]

/-- Instruction `8126` with `V2 = 5`. -/
def exShrPlain : State := machine [0x81, 0x26] [0, 0, 5]

/-- Instruction `F10A` at `pc = 0x200`, with `V1 = 9`, delay timer 50 and sound
timer 4. -/
def exAwaitTimers : State :=
  { machine [0xF1, 0x0A] [0, 9] with delayTimer := 50, soundTimer := 4 }

/-- Program `F355 F365` with `V0..V3 = 11, 22, 33, 44`, `V4 = 55` and
`I = 0x300`. -/
def exBulk : State := { machine [0xF3, 0x55, 0xF3, 0x65] [11, 22, 33, 44, 55] with I := 0x300 }

/-- What a test does between the bulk store and the bulk load: all registers
zeroed and `I` set back to `I0`. -/
def zeroRegsSetI (I0 : Nat) (s : State) : State :=
  { s with regs := fun _ => 0, I := I0 }

/-- What a call or a return leaves alone: everything except `pc`, `sp` and
`stack`. -/
structure StackFrame (s t : State) : Prop where
  mem : t.mem = s.mem
  I : t.I = s.I
  regs : t.regs = s.regs
  grid : t.grid = s.grid
  pixels : t.pixels = s.pixels
  delayTimer : t.delayTimer = s.delayTimer
  soundTimer : t.soundTimer = s.soundTimer
  held : t.held = s.held
  pressed : t.pressed = s.pressed
  running : t.running = s.running

/-- The word at address `A` is dispatched to `case 2:` (a call). -/
def IsCallAt (s : State) (A : Nat) : Prop :=
  (decode (s.mem A) (s.mem (A + 1))).code = 2

/-- The word at address `A` is dispatched to the return branch of `case 0:`. -/
def IsReturnAt (s : State) (A : Nat) : Prop :=
  (decode (s.mem A) (s.mem (A + 1))).code = 0 ∧
  (decode (s.mem A) (s.mem (A + 1))).NNN = 0x0EE

instance (s : State) (A : Nat) : Decidable (IsCallAt s A) := by
  unfold IsCallAt; infer_instance

instance (s : State) (A : Nat) : Decidable (IsReturnAt s A) := by
  unfold IsReturnAt; infer_instance

/-- A program with calls at 0x200 (to 0x208), 0x202 (to 0x204) and 0x204 (to
0x208) and returns at 0x206 and 0x208; `sp = 7`. -/
def exCalls : State :=
  { machine [0x22, 0x08, 0x22, 0x04, 0x22, 0x08, 0x00, 0xEE, 0x00, 0xEE] [1, 2, 3] with
    sp := 7 }

/-- The same program with the stack pointer at its largest value, 255. -/
def exCallsTop : State := { exCalls with sp := 255 }

/-- The same program with the stack pointer at 0 and 0x345 in stack slot 0. -/
def exCallsBottom : State :=
  { exCalls with sp := 0, stack := fun k => if k = 0 then 0x345 else 0 }

/-! ## Decoding -/

theorem nibble2_eq (a : Nat) : _nibble2 a = a % 16 := by
  unfold _nibble2
  exact Nat.and_pow_two_sub_one_eq_mod a 4

theorem nibble1_eq (a : Nat) : _nibble1 a = a / 16 % 16 := by
  unfold _nibble1
  apply Nat.eq_of_testBit_eq
  intro i
  have h240 : ((1 <<< 4) - 1) <<< 4 = 2 ^ 8 - 2 ^ 4 := by decide
  rw [Nat.testBit_shiftRight, Nat.testBit_land, h240]
  have hm : a / 16 % 16 = a / 2 ^ 4 % 2 ^ 4 := by norm_num
  rw [hm, Nat.testBit_mod_two_pow, ← Nat.shiftRight_eq_div_pow, Nat.testBit_shiftRight]
  have hb : (2 ^ 8 - 2 ^ 4 : Nat).testBit (4 + i) = decide (i < 4) := by
    by_cases hi : i < 4
    · interval_cases i <;> decide
    · have h8 : 2 ^ 8 - 2 ^ 4 < 2 ^ (4 + i) := by
        have : 2 ^ 8 ≤ 2 ^ (4 + i) := Nat.pow_le_pow_right (by decide) (by omega)
        omega
      rw [Nat.testBit_lt_two_pow h8]
      simp [hi]
  rw [hb, Bool.and_comm]

/-- Fetch and decode of a well-formed instruction word `c X Y N`. -/
theorem step_decode (inp : Input) (s : State) (c X Y N : Nat)
    (hX : X < 16) (hN : N < 16)
    (h0 : s.mem s.pc = 16 * c + X) (h1 : s.mem (s.pc + 1) = 16 * Y + N)
    (hc : c < 16) (hY : Y < 16) :
    step inp s = execute inp c X Y N (16 * Y + N) (256 * X + (16 * Y + N))
      { s with pc := (s.pc + 2) % 65536 } := by
  have e1 : _nibble1 (s.mem s.pc) = c := by rw [h0, nibble1_eq]; omega
  have e2 : _nibble2 (s.mem s.pc) = X := by rw [h0, nibble2_eq]; omega
  have e3 : _nibble1 (s.mem (s.pc + 1)) = Y := by rw [h1, nibble1_eq]; omega
  have e4 : _nibble2 (s.mem (s.pc + 1)) = N := by rw [h1, nibble2_eq]; omega
  have e5 : X <<< 8 = 256 * X := by rw [Nat.shiftLeft_eq]; omega
  simp only [step, e1, e2, e3, e4, e5]
  rw [h1]

/-! ## Register arithmetic (`8XY4`, `8XY5`) -/

theorem toUint8_tmod (z : Int) : toUint8 (Int.tmod (z + 256) 256) = toUint8 z := by
  unfold toUint8
  have h := Int.tmod_add_tdiv (z + 256) 256
  generalize Int.tmod (z + 256) 256 = r at h
  generalize Int.tdiv (z + 256) 256 = q at h
  congr 1
  omega

/-- C1 (amended): executing `8XY4` leaves the flag register VF equal to 1 if
VX + VY > 255 and 0 otherwise, for every pair of register indices (X = 0xF and
X = Y included); register X is left equal to (VX + VY) mod 256 whenever X is not
0xF (for X = 0xF the carry is written last and is what the register holds). -/
theorem add_8XY4_sum_and_carry (inp : Input) (s : State) (X Y : Nat)
    (hX : X < 16) (hY : Y < 16)
    (h0 : s.mem s.pc = 0x80 + X) (h1 : s.mem (s.pc + 1) = 16 * Y + 4) :
    (step inp s).regs 0xF = (if s.regs X + s.regs Y > 255 then 1 else 0) ∧
    (X ≠ 0xF → (step inp s).regs X = (s.regs X + s.regs Y) % 256) := by
  rw [step_decode inp s 8 X Y 4 hX (by decide) h0 h1 (by decide) hY]
  constructor
  · simp [execute, op8]
  · intro hne
    simp [execute, op8, Function.update_noteq hne]

theorem add_8XY4_sum_and_carry_witness :
    (step quiet exAdd).regs 0xF = 1 ∧ (step quiet exAdd).regs 1 = 44 :=
  have h := add_8XY4_sum_and_carry quiet exAdd 1 2 (by decide) (by decide) (by decide)
    (by decide)
  ⟨h.1, h.2 (by decide)⟩

/-- C1 as stated fails for X = 0xF: `8F04` with VF = 1 and V0 = 1 leaves VF = 0
(the carry), not (1 + 1) mod 256 = 2. -/
theorem add_8XY4_flag_destination_counterexample :
    exAddFlag.mem exAddFlag.pc = 0x80 + 0xF ∧
    exAddFlag.mem (exAddFlag.pc + 1) = 16 * 0 + 4 ∧
    (step quiet exAddFlag).regs 0xF = 0 ∧
    (exAddFlag.regs 0xF + exAddFlag.regs 0) % 256 = 2 ∧
    ¬ ((step quiet exAddFlag).regs 0xF = (exAddFlag.regs 0xF + exAddFlag.regs 0) % 256 ∧
       (step quiet exAddFlag).regs 0xF =
         (if exAddFlag.regs 0xF + exAddFlag.regs 0 > 255 then 1 else 0)) := by
  decide

/-- C2 (amended): executing `8XY5` leaves the flag register VF equal to 1 if
VX >= VY and 0 otherwise, for every pair of register indices; register X is
left equal to (VX - VY) mod 256 whenever X is not 0xF (for X = 0xF the flag is
written last and is what the register holds). -/
theorem sub_8XY5_difference_and_flag (inp : Input) (s : State) (X Y : Nat)
    (hX : X < 16) (hY : Y < 16)
    (h0 : s.mem s.pc = 0x80 + X) (h1 : s.mem (s.pc + 1) = 16 * Y + 5) :
    (step inp s).regs 0xF = (if s.regs X ≥ s.regs Y then 1 else 0) ∧
    (X ≠ 0xF →
      ((step inp s).regs X : Int) = ((s.regs X : Int) - (s.regs Y : Int)) % 256) := by
  rw [step_decode inp s 8 X Y 5 hX (by decide) h0 h1 (by decide) hY]
  constructor
  · simp [execute, op8]
  · intro hne
    simp only [execute, op8, toUint8_tmod]
    simp [Function.update_noteq hne, toUint8]
    omega

theorem sub_8XY5_difference_and_flag_witness :
    (step quiet exSub).regs 0xF = 0 ∧ ((step quiet exSub).regs 1 : Int) = 254 :=
  have h := sub_8XY5_difference_and_flag quiet exSub 1 2 (by decide) (by decide) (by decide)
    (by decide)
  ⟨h.1, h.2 (by decide)⟩

/-- C2 as stated fails for X = 0xF: `8F05` with VF = 5 and V0 = 2 leaves VF = 1
(no borrow), not (5 - 2) mod 256 = 3. -/
theorem sub_8XY5_flag_destination_counterexample :
    exSubFlag.mem exSubFlag.pc = 0x80 + 0xF ∧
    exSubFlag.mem (exSubFlag.pc + 1) = 16 * 0 + 5 ∧
    (step quiet exSubFlag).regs 0xF = 1 ∧
    ((exSubFlag.regs 0xF : Int) - (exSubFlag.regs 0 : Int)) % 256 = 3 ∧
    ¬ ((step quiet exSubFlag).regs 0xF = (if exSubFlag.regs 0xF ≥ exSubFlag.regs 0 then 1 else 0) ∧
       ((step quiet exSubFlag).regs 0xF : Int) =
         ((exSubFlag.regs 0xF : Int) - (exSubFlag.regs 0 : Int)) % 256) := by
  decide

/-! ## Decimal digits (`FX33`) -/

theorem bcdDigits_zero (I n : Nat) (mem : Nat → Nat) :
    bcdDigits I 0 n mem = (n, mem) := by
  rw [bcdDigits]; simp

theorem bcdDigits_pos (I tmp n : Nat) (mem : Nat → Nat) (h : 0 < tmp) :
    bcdDigits I tmp n mem =
      bcdDigits I (tmp / 10) ((n + 1) % 256) (Function.update mem (I + n) (tmp % 10)) := by
  rw [bcdDigits]; simp [h]

/-- For a value of three decimal digits `FX33` stores hundreds, tens and ones at
`I`, `I+1`, `I+2`. -/
theorem bcd_FX33_three_digits (inp : Input) (s : State) (X : Nat) (hX : X < 16)
    (h0 : s.mem s.pc = 0xF0 + X) (h1 : s.mem (s.pc + 1) = 0x33)
    (h100 : 100 ≤ s.regs X) (h256 : s.regs X < 256) :
    (step inp s).mem s.I = s.regs X / 100 ∧
    (step inp s).mem (s.I + 1) = s.regs X / 10 % 10 ∧
    (step inp s).mem (s.I + 2) = s.regs X % 10 := by
  rw [step_decode inp s 15 X 3 3 hX (by decide) h0 h1 (by decide) (by decide)]
  have e : ∀ m, bcdDigits s.I (s.regs X) 0 m =
      (3, Function.update (Function.update (Function.update m (s.I + 0) (s.regs X % 10))
        (s.I + 1) (s.regs X / 10 % 10)) (s.I + 2) (s.regs X / 10 / 10 % 10)) := by
    intro m
    rw [bcdDigits_pos _ _ _ _ (by omega), bcdDigits_pos _ _ _ _ (by omega),
      bcdDigits_pos _ _ _ _ (by omega)]
    have hz : s.regs X / 10 / 10 / 10 = 0 := by omega
    rw [hz, bcdDigits_zero]
  simp only [execute, opF, opBcd, e, bcdReverse, forLoop]
  simp
  omega

/-- The value 123 is stored as 1, 2, 3. -/
theorem bcd_FX33_example_123 :
    (step quiet exBcd).mem 0x300 = 1 ∧ (step quiet exBcd).mem 0x301 = 2 ∧
    (step quiet exBcd).mem 0x302 = 3 :=
  bcd_FX33_three_digits quiet exBcd 1 (by decide) (by decide) (by decide) (by decide)
    (by decide)

/-- For a value below 100 `FX33` never writes the byte at `I + 2`: two digits go
to `I` and `I + 1`, one digit to `I`, and for 0 memory is left as it was. -/
theorem bcd_FX33_below_100 (inp : Input) (s : State) (X : Nat) (hX : X < 16)
    (h0 : s.mem s.pc = 0xF0 + X) (h1 : s.mem (s.pc + 1) = 0x33)
    (hv : s.regs X < 100) :
    (step inp s).mem (s.I + 2) = s.mem (s.I + 2) ∧
    (10 ≤ s.regs X → (step inp s).mem s.I = s.regs X / 10 ∧
      (step inp s).mem (s.I + 1) = s.regs X % 10) ∧
    (0 < s.regs X → s.regs X < 10 → (step inp s).mem s.I = s.regs X ∧
      (step inp s).mem (s.I + 1) = s.mem (s.I + 1)) ∧
    (s.regs X = 0 → (step inp s).mem = s.mem) := by
  rw [step_decode inp s 15 X 3 3 hX (by decide) h0 h1 (by decide) (by decide)]
  by_cases h10 : 10 ≤ s.regs X
  · have e : ∀ m, bcdDigits s.I (s.regs X) 0 m =
        (2, Function.update (Function.update m (s.I + 0) (s.regs X % 10))
          (s.I + 1) (s.regs X / 10 % 10)) := by
      intro m
      rw [bcdDigits_pos _ _ _ _ (by omega), bcdDigits_pos _ _ _ _ (by omega)]
      have hz : s.regs X / 10 / 10 = 0 := by omega
      rw [hz, bcdDigits_zero]
    simp only [execute, opF, opBcd, e, bcdReverse, forLoop]
    refine ⟨by simp, fun _ => ?_, fun _ h => by omega, fun h => by omega⟩
    simp
    omega
  · by_cases hpos : 0 < s.regs X
    · have e : ∀ m, bcdDigits s.I (s.regs X) 0 m =
          (1, Function.update m (s.I + 0) (s.regs X % 10)) := by
        intro m
        rw [bcdDigits_pos _ _ _ _ hpos]
        have hz : s.regs X / 10 = 0 := by omega
        rw [hz, bcdDigits_zero]
      simp only [execute, opF, opBcd, e, bcdReverse, forLoop]
      refine ⟨by simp, fun h => by omega, fun _ _ => ?_, fun h => by omega⟩
      simp
      omega
    · have hz : s.regs X = 0 := by omega
      simp only [execute, opF, opBcd, hz, bcdDigits_zero, bcdReverse, forLoop]
      refine ⟨by simp, fun h => by omega, fun h => by omega, fun _ => by simp⟩

/-- C3 at a failing input: `F133` with V1 = 45, I = 0x300 and the bytes 1, 2, 3
at I, I+1, I+2 leaves 4, 5, 3 there: only the two significant digits are
written, left-aligned, where the claim requires 45 / 100 = 0, 4, 5. -/
theorem bcd_FX33_two_digit_value_evaluation :
    exBcdShort.mem exBcdShort.pc = 0xF0 + 1 ∧
    exBcdShort.mem (exBcdShort.pc + 1) = 0x33 ∧
    exBcdShort.regs 1 = 45 ∧ exBcdShort.I = 0x300 ∧
    (step quiet exBcdShort).mem 0x300 = 4 ∧
    (step quiet exBcdShort).mem 0x301 = 5 ∧
    (step quiet exBcdShort).mem 0x302 = 3 ∧
    (45 / 100 = 0 ∧ 45 / 10 % 10 = 4 ∧ 45 % 10 = 5) := by
  have hd : exBcdShort.mem exBcdShort.pc = 16 * 15 + 1 := by decide
  have hd1 : exBcdShort.mem (exBcdShort.pc + 1) = 16 * 3 + 3 := by decide
  have hr : exBcdShort.regs 1 = 45 := by decide
  have hI : exBcdShort.I = 0x300 := by decide
  refine ⟨by decide, by decide, hr, hI, ?_⟩
  rw [step_decode quiet exBcdShort 15 1 3 3 (by decide) (by decide) hd hd1 (by decide)
    (by decide)]
  have e : ∀ m, bcdDigits 0x300 45 0 m =
      (2, Function.update (Function.update m 0x300 5) 0x301 4) := by
    intro m
    rw [bcdDigits_pos _ _ _ _ (by decide), bcdDigits_pos _ _ _ _ (by decide)]
    exact bcdDigits_zero _ _ _
  simp only [execute, opF, opBcd, hr, hI, e, bcdReverse, forLoop]
  simp [exBcdShort]

/-! ## Timers -/

theorem timerTick_delayTimer (s : State) :
    (timerTick s).delayTimer = if s.delayTimer > 0 then s.delayTimer - 1 else s.delayTimer := by
  by_cases h1 : s.delayTimer > 0 <;> by_cases h2 : s.soundTimer > 0 <;>
    simp [timerTick, h1, h2]

theorem timerTick_soundTimer (s : State) :
    (timerTick s).soundTimer = if s.soundTimer > 0 then s.soundTimer - 1 else s.soundTimer := by
  by_cases h1 : s.delayTimer > 0 <;> by_cases h2 : s.soundTimer > 0 <;>
    simp [timerTick, h1, h2]

/-- C8: starting from non-negative timer values, after n ticks of the timer
thread with no write in between each counter equals max(v - n, 0); a single tick
never increases a counter and never takes it below 0; a counter at 10 is 0 after
10 ticks and after any larger number of ticks. -/
theorem timer_after_ticks (s : State) (n : Nat)
    (hd : 0 ≤ s.delayTimer) (hs : 0 ≤ s.soundTimer) :
    (timerTick^[n] s).delayTimer = max (s.delayTimer - n) 0 ∧
    (timerTick^[n] s).soundTimer = max (s.soundTimer - n) 0 ∧
    (timerTick^[n + 1] s).delayTimer ≤ (timerTick^[n] s).delayTimer ∧
    (timerTick^[n + 1] s).soundTimer ≤ (timerTick^[n] s).soundTimer ∧
    0 ≤ (timerTick^[n] s).delayTimer ∧ 0 ≤ (timerTick^[n] s).soundTimer ∧
    (s.delayTimer = 10 → 10 ≤ n → (timerTick^[n] s).delayTimer = 0) ∧
    (s.soundTimer = 10 → 10 ≤ n → (timerTick^[n] s).soundTimer = 0) := by
  have key : ∀ k : Nat, (timerTick^[k] s).delayTimer = max (s.delayTimer - k) 0 ∧
      (timerTick^[k] s).soundTimer = max (s.soundTimer - k) 0 := by
    intro k
    induction k with
    | zero => simp [hd, hs]
    | succ k ih =>
      rw [Function.iterate_succ_apply', timerTick_delayTimer, timerTick_soundTimer,
        ih.1, ih.2]
      constructor <;> split_ifs <;> push_cast <;> omega
  have hn := key n
  have hn1 := key (n + 1)
  refine ⟨hn.1, hn.2, ?_, ?_, ?_, ?_, ?_, ?_⟩
  · rw [hn1.1, hn.1]; push_cast; omega
  · rw [hn1.2, hn.2]; push_cast; omega
  · rw [hn.1]; omega
  · rw [hn.2]; omega
  · intro h10 hle; rw [hn.1, h10]; omega
  · intro h10 hle; rw [hn.2, h10]; omega

theorem timer_after_ticks_witness :
    (timerTick^[10] exTimers).delayTimer = 0 ∧ (timerTick^[10] exTimers).soundTimer = 0 ∧
    (timerTick^[4] exTimers).delayTimer = 6 ∧
    (timerTick^[4 + 1] exTimers).delayTimer ≤ (timerTick^[4] exTimers).delayTimer :=
  have h10 := timer_after_ticks exTimers 10 (by decide) (by decide)
  have h4 := timer_after_ticks exTimers 4 (by decide) (by decide)
  ⟨h10.2.2.2.2.2.2.1 rfl (by decide), h10.2.1, h4.1, h4.2.2.1⟩

/-! ## Jump with offset (`BNNN`) -/

/-- C10: executing `BNNN` sets PC to NNN + V0, without truncation to 12 bits,
and changes nothing else; with V0 = 5 and NNN = 0x300 the resulting PC is
0x305. -/
theorem jump_offset_BNNN (inp : Input) (s : State) (NNN : Nat)
    (hN : NNN < 4096) (hv : s.regs 0 < 256)
    (h0 : s.mem s.pc = 0xB0 + NNN / 256) (h1 : s.mem (s.pc + 1) = NNN % 256) :
    step inp s = { s with pc := NNN + s.regs 0 } ∧
    (s.regs 0 = 5 → NNN = 0x300 → (step inp s).pc = 0x305) := by
  have h1' : s.mem (s.pc + 1) = 16 * (NNN % 256 / 16) + NNN % 16 := by omega
  have e : step inp s = { s with pc := NNN + s.regs 0 } := by
    rw [step_decode inp s 11 (NNN / 256) (NNN % 256 / 16) (NNN % 16) (by omega) (by omega)
      h0 h1' (by decide) (by omega)]
    have hn : 256 * (NNN / 256) + (16 * (NNN % 256 / 16) + NNN % 16) = NNN := by omega
    simp only [execute, hn]
    simp
    omega
  refine ⟨e, ?_⟩
  intro h5 h300
  rw [e]
  simp [h5, h300]

theorem jump_offset_BNNN_witness :
    step quiet exJump = { exJump with pc := 0x305 } ∧ (step quiet exJump).pc = 0x305 :=
  have h := jump_offset_BNNN quiet exJump 0x300 (by decide) (by decide) (by decide)
    (by decide)
  ⟨h.1, h.2 rfl rfl⟩

/-! ## Event poll and await-key (`FX0A`) -/

theorem update_lt {f : Nat → Nat} {n a v : Nat} (hf : ∀ x, f x < n) (hv : v < n) (x : Nat) :
    Function.update f a v x < n := by
  rw [Function.update_apply]; split_ifs
  · exact hv
  · exact hf x

theorem keypad_lt (sc : Nat) : keypad sc < 16 := by
  unfold keypad initKeypad
  repeat (first | apply update_lt _ (by decide) | intro _)
  decide

/-- The poll touches only `held`, `pressed` and `running`. -/
theorem handleEvent_frame (p : PollState) (e : Event) :
    (handleEvent p e).st.mem = p.st.mem ∧ (handleEvent p e).st.pc = p.st.pc ∧
    (handleEvent p e).st.regs = p.st.regs := by
  cases e <;> simp [handleEvent]

theorem foldl_handleEvent_frame (events : List Event) (p : PollState) :
    (events.foldl handleEvent p).st.mem = p.st.mem ∧
    (events.foldl handleEvent p).st.pc = p.st.pc ∧
    (events.foldl handleEvent p).st.regs = p.st.regs := by
  induction events generalizing p with
  | nil => simp
  | cons e rest ih =>
    have h := handleEvent_frame p e
    have h2 := ih (handleEvent p e)
    simp only [List.foldl_cons]
    exact ⟨h2.1.trans h.1, h2.2.1.trans h.2.1, h2.2.2.trans h.2.2⟩

/-- Events other than key-down leave `anyKeyPressed` and `lastKey` alone. -/
theorem foldl_handleEvent_no_keydown (events : List Event) (p : PollState)
    (h : ∀ e ∈ events, e.isKeydown = false) :
    (events.foldl handleEvent p).anyKeyPressed = p.anyKeyPressed ∧
    (events.foldl handleEvent p).lastKey = p.lastKey := by
  induction events generalizing p with
  | nil => simp
  | cons e rest ih =>
    have hrest : ∀ e ∈ rest, e.isKeydown = false := fun e he => h e (List.mem_cons_of_mem _ he)
    have he : e.isKeydown = false := h e (List.mem_cons_self _ _)
    have h2 := ih (handleEvent p e) hrest
    simp only [List.foldl_cons]
    cases e with
    | keydown sc => simp [Event.isKeydown] at he
    | quit => simpa [handleEvent] using h2
    | keyup sc => simpa [handleEvent] using h2
    | other => simpa [handleEvent] using h2

/-- An iteration on `FX0A` whose poll saw no key-down event. -/
theorem loopIteration_await_no_key (s : State) (X : Nat) (hX : X < 16)
    (hpc : s.pc + 1 < 4096)
    (h0 : s.mem s.pc = 0xF0 + X) (h1 : s.mem (s.pc + 1) = 0x0A)
    (events : List Event) (rnd : Nat) (h : ∀ e ∈ events, e.isKeydown = false) :
    (loopIteration events rnd s).pc = s.pc ∧
    (loopIteration events rnd s).regs = s.regs ∧
    (loopIteration events rnd s).mem = s.mem := by
  obtain ⟨fm, fp, fr⟩ := foldl_handleEvent_frame events
    { st := s, anyKeyPressed := false, lastKey := 0 }
  obtain ⟨fa, -⟩ := foldl_handleEvent_no_keydown events
    { st := s, anyKeyPressed := false, lastKey := 0 } h
  simp only at fm fp fr fa
  have d0 : (pollEvents events s).st.mem (pollEvents events s).st.pc = 16 * 15 + X := by
    simp only [pollEvents, fm, fp, h0]
  have d1 : (pollEvents events s).st.mem ((pollEvents events s).st.pc + 1) = 16 * 0 + 10 := by
    simp only [pollEvents, fm, fp, h1]
  unfold loopIteration
  simp only []
  rw [step_decode _ _ 15 X 0 10 hX (by decide) d0 d1 (by decide) (by decide)]
  have ha : (pollEvents events s).anyKeyPressed = false := fa
  simp only [execute, opF, opSetDelay, ha]
  simp only [pollEvents, fm, fp, fr]
  simp
  omega

/-- C9: with `FX0A` at the current PC, a loop iteration whose poll saw no
key-down event leaves PC at the address of that instruction and register X
unchanged, and so does any number of such iterations; an iteration whose poll
saw a key-down event leaves PC at that address plus 2 and register X holding the
key code of the last key pressed in that poll, for a key whose scancode lies
inside the `keypad` table (at most `MAX_KEYPAD_KEYCODE`). -/
theorem await_key_FX0A (s : State) (X : Nat) (hX : X < 16) (hpc : s.pc + 1 < 4096)
    (h0 : s.mem s.pc = 0xF0 + X) (h1 : s.mem (s.pc + 1) = 0x0A) :
    (∀ events rnd, (∀ e ∈ events, Event.isKeydown e = false) →
      (loopIteration events rnd s).pc = s.pc ∧
      (loopIteration events rnd s).regs X = s.regs X) ∧
    (∀ polls : List (List Event × Nat),
      (∀ p ∈ polls, ∀ e ∈ p.1, Event.isKeydown e = false) →
      (runLoop polls s).pc = s.pc ∧ (runLoop polls s).regs X = s.regs X) ∧
    (∀ pre sc post rnd, sc ≤ MAX_KEYPAD_KEYCODE →
      (∀ e ∈ post, Event.isKeydown e = false) →
      (loopIteration (pre ++ Event.keydown sc :: post) rnd s).pc = s.pc + 2 ∧
      (loopIteration (pre ++ Event.keydown sc :: post) rnd s).regs X = keypad sc) := by
  refine ⟨?_, ?_, ?_⟩
  · intro events rnd h
    obtain ⟨a, b, -⟩ := loopIteration_await_no_key s X hX hpc h0 h1 events rnd h
    exact ⟨a, by rw [b]⟩
  · intro polls
    induction polls generalizing s with
    | nil => intro _; exact ⟨rfl, rfl⟩
    | cons p rest ih =>
      intro h
      obtain ⟨events, rnd⟩ := p
      have hhd : ∀ e ∈ events, Event.isKeydown e = false :=
        h (events, rnd) (List.mem_cons_self _ _)
      have htl : ∀ p ∈ rest, ∀ e ∈ p.1, Event.isKeydown e = false :=
        fun p hp => h p (List.mem_cons_of_mem _ hp)
      obtain ⟨a, b, c⟩ := loopIteration_await_no_key s X hX hpc h0 h1 events rnd hhd
      simp only [runLoop]
      split_ifs
      · have := ih (loopIteration events rnd s) (by rw [a]; exact hpc)
          (by rw [a, c]; exact h0) (by rw [a, c]; exact h1) htl
        rw [this.1, this.2, a, b]
        exact ⟨rfl, rfl⟩
      · exact ⟨rfl, rfl⟩
  · intro pre sc post rnd _ h
    have hsplit : pollEvents (pre ++ Event.keydown sc :: post) s =
        post.foldl handleEvent (handleEvent (pre.foldl handleEvent
          { st := s, anyKeyPressed := false, lastKey := 0 }) (Event.keydown sc)) := by
      simp [pollEvents, List.foldl_append]
    obtain ⟨fm, fp, fr⟩ := foldl_handleEvent_frame (pre ++ Event.keydown sc :: post)
      { st := s, anyKeyPressed := false, lastKey := 0 }
    obtain ⟨fa, fl⟩ := foldl_handleEvent_no_keydown post (handleEvent (pre.foldl handleEvent
          { st := s, anyKeyPressed := false, lastKey := 0 }) (Event.keydown sc)) h
    rw [← hsplit] at fa fl
    simp only [handleEvent] at fa fl
    simp only at fm fp fr
    have d0 : (pollEvents (pre ++ Event.keydown sc :: post) s).st.mem
        (pollEvents (pre ++ Event.keydown sc :: post) s).st.pc = 16 * 15 + X := by
      simp only [pollEvents, fm, fp, h0]
    have d1 : (pollEvents (pre ++ Event.keydown sc :: post) s).st.mem
        ((pollEvents (pre ++ Event.keydown sc :: post) s).st.pc + 1) = 16 * 0 + 10 := by
      simp only [pollEvents, fm, fp, h1]
    have hk := keypad_lt sc
    unfold loopIteration
    simp only []
    rw [step_decode _ _ 15 X 0 10 hX (by decide) d0 d1 (by decide) (by decide)]
    simp only [execute, opF, opSetDelay, fa, fl]
    have fp' : (pollEvents (pre ++ Event.keydown sc :: post) s).st.pc = s.pc := fp
    simp [fp']
    omega

theorem await_key_FX0A_witness :
    ((loopIteration [Event.keyup 4, Event.other] 7 exAwait).pc = exAwait.pc ∧
      (loopIteration [Event.keyup 4, Event.other] 7 exAwait).regs 1 = exAwait.regs 1) ∧
    ((runLoop [([Event.keyup 4], 7), ([], 3), ([Event.other], 0)] exAwait).pc = exAwait.pc ∧
      (runLoop [([Event.keyup 4], 7), ([], 3), ([Event.other], 0)] exAwait).regs 1 =
        exAwait.regs 1) ∧
    ((loopIteration ([Event.keydown 30] ++ Event.keydown 20 :: [Event.keyup 30]) 7 exAwait).pc =
        exAwait.pc + 2 ∧
      (loopIteration ([Event.keydown 30] ++ Event.keydown 20 :: [Event.keyup 30]) 7 exAwait).regs 1 =
        keypad 20) :=
  ⟨(await_key_FX0A exAwait 1 (by decide) (by decide) (by decide) (by decide)).1
      [Event.keyup 4, Event.other] 7 (by decide),
   (await_key_FX0A exAwait 1 (by decide) (by decide) (by decide) (by decide)).2.1
      [([Event.keyup 4], 7), ([], 3), ([Event.other], 0)] (by decide),
   (await_key_FX0A exAwait 1 (by decide) (by decide) (by decide) (by decide)).2.2
      [Event.keydown 30] 20 [Event.keyup 30] 7 (by decide) (by decide)⟩

/-! ## Sprite drawing (`DXYN`) -/

theorem forLoop_invariant {σ : Type} (P : Nat → σ → Prop) (body : Nat → σ → σ) (s : σ)
    (n : Nat) (h0 : P 0 s) (hs : ∀ k t, k < n → P k t → P (k + 1) (body k t)) :
    P n (forLoop n body s) := by
  induction n with
  | zero => exact h0
  | succ n ih =>
    exact hs n _ (Nat.lt_succ_self n) (ih (fun k t hk => hs k t (Nat.lt_succ_of_lt hk)))

theorem DrawFrame.refl (t : State) : DrawFrame t t :=
  ⟨rfl, rfl, rfl, fun _ _ => rfl, rfl, rfl, rfl, rfl, rfl, rfl, rfl⟩

theorem DrawFrame.trans {a b c : State} (h1 : DrawFrame a b) (h2 : DrawFrame b c) :
    DrawFrame a c :=
  ⟨h2.mem.trans h1.mem, h2.pc.trans h1.pc, h2.I.trans h1.I,
   fun r hr => (h2.regs r hr).trans (h1.regs r hr), h2.stack.trans h1.stack,
   h2.sp.trans h1.sp, h2.delayTimer.trans h1.delayTimer,
   h2.soundTimer.trans h1.soundTimer, h2.held.trans h1.held,
   h2.pressed.trans h1.pressed, h2.running.trans h1.running⟩

theorem spriteBit_iff (m k : Nat) : (m >>> k) &&& 1 ≠ 0 ↔ m.testBit k = true := by
  unfold Nat.testBit
  simp [Nat.and_comm]

theorem setPixel_grid (x y color : Nat) (s : State) (r c : Nat) :
    (setPixel x y color s).grid r c = if r = y ∧ c = x then color else s.grid r c := by
  simp only [setPixel, Function.update_apply]
  by_cases hr : r = y
  · subst hr
    by_cases hc : c = x <;> simp [hc, Function.update_apply]
  · simp [hr]

theorem drawPixel_spec (x y j i : Nat) (u : State) :
    DrawFrame u (drawPixel x y j i u) ∧
    (∀ r c, (drawPixel x y j i u).grid r c =
      if (u.mem (u.I + j)).testBit (7 - i) = true ∧ r = y + j ∧ c = x + i then
        oneMinusU32 (u.grid r c) else u.grid r c) ∧
    ((u.mem (u.I + j)).testBit (7 - i) = true ∧ u.grid (y + j) (x + i) ≠ 0 →
      (drawPixel x y j i u).regs 0xF = 1) ∧
    (¬ ((u.mem (u.I + j)).testBit (7 - i) = true ∧ u.grid (y + j) (x + i) ≠ 0) →
      (drawPixel x y j i u).regs 0xF = u.regs 0xF) := by
  by_cases hb : (u.mem (u.I + j)).testBit (7 - i) = true
  · have hb' : (u.mem (u.I + j) >>> (7 - i)) &&& 1 ≠ 0 := (spriteBit_iff _ _).2 hb
    by_cases hg : u.grid (y + j) (x + i) ≠ 0
    · have e : drawPixel x y j i u = setPixel (x + i) (y + j)
          (oneMinusU32 (u.grid (y + j) (x + i)))
          { u with regs := Function.update u.regs 0xF 1 } := by
        simp only [drawPixel, if_pos hb', if_pos hg]
      rw [e]
      refine ⟨⟨rfl, rfl, rfl, ?_, rfl, rfl, rfl, rfl, rfl, rfl, rfl⟩, ?_, ?_, ?_⟩
      · intro r hr
        simp [setPixel, Function.update_noteq hr]
      · intro r c
        rw [setPixel_grid]
        by_cases h : r = y + j ∧ c = x + i
        · simp [h, hb]
        · simp only [if_neg h]
          rw [if_neg (fun h' => h h'.2)]
      · intro _
        simp [setPixel]
      · intro h
        exact absurd ⟨hb, hg⟩ h
    · have e : drawPixel x y j i u = setPixel (x + i) (y + j)
          (oneMinusU32 (u.grid (y + j) (x + i))) u := by
        simp only [drawPixel, if_pos hb', if_neg hg]
      rw [e]
      refine ⟨⟨rfl, rfl, rfl, fun _ _ => rfl, rfl, rfl, rfl, rfl, rfl, rfl, rfl⟩, ?_, ?_, ?_⟩
      · intro r c
        rw [setPixel_grid]
        by_cases h : r = y + j ∧ c = x + i
        · simp [h, hb]
        · simp only [if_neg h]
          rw [if_neg (fun h' => h h'.2)]
      · intro h
        exact absurd h.2 hg
      · intro _
        rfl
  · have hb' : ¬ ((u.mem (u.I + j) >>> (7 - i)) &&& 1 ≠ 0) := fun h => hb ((spriteBit_iff _ _).1 h)
    have e : drawPixel x y j i u = u := by
      simp only [drawPixel, if_neg hb']
    rw [e]
    refine ⟨DrawFrame.refl u, ?_, ?_, ?_⟩
    · intro r c
      rw [if_neg (fun h' => hb h'.1)]
    · intro h
      exact absurd h.1 hb
    · intro _
      rfl

theorem drawRow_spec (x y j w : Nat) (t : State) :
    DrawFrame t (drawRow x y w j t) ∧
    (∀ r c, (drawRow x y w j t).grid r c =
      if r = y + j ∧ x ≤ c ∧ c < x + w ∧ (t.mem (t.I + j)).testBit (7 - (c - x)) = true then
        oneMinusU32 (t.grid r c) else t.grid r c) ∧
    ((∃ i, i < w ∧ (t.mem (t.I + j)).testBit (7 - i) = true ∧ t.grid (y + j) (x + i) ≠ 0) →
      (drawRow x y w j t).regs 0xF = 1) ∧
    (¬ (∃ i, i < w ∧ (t.mem (t.I + j)).testBit (7 - i) = true ∧ t.grid (y + j) (x + i) ≠ 0) →
      (drawRow x y w j t).regs 0xF = t.regs 0xF) := by
  unfold drawRow
  refine forLoop_invariant (fun k u =>
    DrawFrame t u ∧
    (∀ r c, u.grid r c =
      if r = y + j ∧ x ≤ c ∧ c < x + k ∧ (t.mem (t.I + j)).testBit (7 - (c - x)) = true then
        oneMinusU32 (t.grid r c) else t.grid r c) ∧
    ((∃ i, i < k ∧ (t.mem (t.I + j)).testBit (7 - i) = true ∧ t.grid (y + j) (x + i) ≠ 0) →
      u.regs 0xF = 1) ∧
    (¬ (∃ i, i < k ∧ (t.mem (t.I + j)).testBit (7 - i) = true ∧ t.grid (y + j) (x + i) ≠ 0) →
      u.regs 0xF = t.regs 0xF)) _ t w ?_ ?_
  · refine ⟨DrawFrame.refl t, ?_, ?_, ?_⟩
    · intro r c
      rw [if_neg]
      intro h
      omega
    · rintro ⟨i, hi, -⟩
      omega
    · intro _
      rfl
  · rintro k u - ⟨hf, hg, hhit, hmiss⟩
    obtain ⟨pf, pg, phit, pmiss⟩ := drawPixel_spec x y j k u
    rw [hf.mem, hf.I] at pg phit pmiss
    have hcell : u.grid (y + j) (x + k) = t.grid (y + j) (x + k) := by
      rw [hg, if_neg]
      intro h
      omega
    rw [hcell] at phit pmiss
    refine ⟨hf.trans pf, ?_, ?_, ?_⟩
    · intro r c
      rw [pg]
      by_cases hrc : r = y + j ∧ c = x + k
      · obtain ⟨hr, hc⟩ := hrc
        subst hr hc
        rw [hcell]
        have e : x + k - x = k := by omega
        by_cases hb : (t.mem (t.I + j)).testBit (7 - k) = true
        · rw [if_pos ⟨hb, rfl, rfl⟩, if_pos ⟨rfl, by omega, by omega, by rw [e]; exact hb⟩]
        · rw [if_neg (fun h => hb h.1), if_neg (fun h => hb (by rw [e] at h; exact h.2.2.2))]
      · rw [if_neg (fun h => hrc h.2), hg]
        by_cases hc : r = y + j ∧ x ≤ c ∧ c < x + k ∧
            (t.mem (t.I + j)).testBit (7 - (c - x)) = true
        · rw [if_pos hc, if_pos ⟨hc.1, hc.2.1, by omega, hc.2.2.2⟩]
        · rw [if_neg hc, if_neg]
          rintro ⟨h1, h2, h3, h4⟩
          apply hc
          refine ⟨h1, h2, ?_, h4⟩
          by_contra hlt
          exact hrc ⟨h1, by omega⟩
    · rintro ⟨i, hi, hb, hne⟩
      by_cases hik : i = k
      · subst hik
        exact phit ⟨hb, hne⟩
      · by_cases hk : (t.mem (t.I + j)).testBit (7 - k) = true ∧ t.grid (y + j) (x + k) ≠ 0
        · exact phit hk
        · rw [pmiss hk]
          exact hhit ⟨i, by omega, hb, hne⟩
    · intro hno
      have hk : ¬ ((t.mem (t.I + j)).testBit (7 - k) = true ∧ t.grid (y + j) (x + k) ≠ 0) :=
        fun h => hno ⟨k, Nat.lt_succ_self k, h.1, h.2⟩
      rw [pmiss hk]
      apply hmiss
      rintro ⟨i, hi, hb, hne⟩
      exact hno ⟨i, Nat.lt_succ_of_lt hi, hb, hne⟩

/-- The two loops of the draw instruction, `h` rows of `w` columns at `(x, y)`. -/
theorem drawSprite_spec (x y h w : Nat) (t : State) :
    DrawFrame t (forLoop h (fun j u => drawRow x y w j u) t) ∧
    (∀ r c, (forLoop h (fun j u => drawRow x y w j u) t).grid r c =
      if SpriteCovers t x y h w r c then oneMinusU32 (t.grid r c) else t.grid r c) ∧
    (SpriteHits t x y h w → (forLoop h (fun j u => drawRow x y w j u) t).regs 0xF = 1) ∧
    (¬ SpriteHits t x y h w →
      (forLoop h (fun j u => drawRow x y w j u) t).regs 0xF = t.regs 0xF) := by
  refine forLoop_invariant (fun k u =>
    DrawFrame t u ∧
    (∀ r c, u.grid r c =
      if SpriteCovers t x y k w r c then oneMinusU32 (t.grid r c) else t.grid r c) ∧
    (SpriteHits t x y k w → u.regs 0xF = 1) ∧
    (¬ SpriteHits t x y k w → u.regs 0xF = t.regs 0xF)) _ t h ?_ ?_
  · refine ⟨DrawFrame.refl t, ?_, ?_, ?_⟩
    · intro r c
      rw [if_neg]
      unfold SpriteCovers
      intro hc
      omega
    · rintro ⟨j, i, hj, -⟩
      omega
    · intro _
      rfl
  · rintro k u - ⟨hf, hg, hhit, hmiss⟩
    obtain ⟨pf, pg, phit, pmiss⟩ := drawRow_spec x y k w u
    rw [hf.mem, hf.I] at pg phit pmiss
    have hrow : ∀ c, u.grid (y + k) c = t.grid (y + k) c := by
      intro c
      rw [hg, if_neg]
      unfold SpriteCovers
      intro hc
      omega
    simp only [hrow] at phit pmiss
    refine ⟨hf.trans pf, ?_, ?_, ?_⟩
    · intro r c
      rw [pg]
      by_cases hr : r = y + k
      · subst hr
        rw [hrow]
        have e : y + k - y = k := by omega
        by_cases hc : x ≤ c ∧ c < x + w ∧ (t.mem (t.I + k)).testBit (7 - (c - x)) = true
        · rw [if_pos ⟨rfl, hc⟩, if_pos]
          exact ⟨by omega, by omega, hc.1, hc.2.1, by rw [e]; exact hc.2.2⟩
        · rw [if_neg (fun h => hc h.2), if_neg]
          rintro ⟨-, -, h3, h4, h5⟩
          rw [e] at h5
          exact hc ⟨h3, h4, h5⟩
      · rw [if_neg (fun h => hr h.1), hg]
        by_cases hc : SpriteCovers t x y k w r c
        · rw [if_pos hc, if_pos]
          exact ⟨hc.1, by have := hc.2.1; omega, hc.2.2⟩
        · rw [if_neg hc, if_neg]
          rintro ⟨h1, h2, h3⟩
          exact hc ⟨h1, by omega, h3⟩
    · rintro ⟨j, i, hj, hi, hb, hne⟩
      by_cases hjk : j = k
      · subst hjk
        exact phit ⟨i, hi, hb, hne⟩
      · by_cases hk : ∃ i, i < w ∧ (t.mem (t.I + k)).testBit (7 - i) = true ∧
            t.grid (y + k) (x + i) ≠ 0
        · exact phit hk
        · rw [pmiss hk]
          exact hhit ⟨j, i, by omega, hi, hb, hne⟩
    · intro hno
      have hk : ¬ ∃ i, i < w ∧ (t.mem (t.I + k)).testBit (7 - i) = true ∧
          t.grid (y + k) (x + i) ≠ 0 := by
        rintro ⟨i, hi, hb, hne⟩
        exact hno ⟨k, i, Nat.lt_succ_self k, hi, hb, hne⟩
      rw [pmiss hk]
      apply hmiss
      rintro ⟨j, i, hj, hi, hb, hne⟩
      exact hno ⟨j, i, Nat.lt_succ_of_lt hj, hi, hb, hne⟩

/-- The draw instruction as a whole: what it leaves alone, the bitmap it
produces and the flag it reports. -/
theorem opDraw_spec (X Y N : Nat) (s : State) :
    DrawFrame s (opDraw X Y N s) ∧
    (∀ r c, (opDraw X Y N s).grid r c =
      if SpriteCovers s (s.regs X % 64) (s.regs Y % 32) (min (32 - s.regs Y % 32) N)
          (min (64 - s.regs X % 64) 8) r c then
        oneMinusU32 (s.grid r c) else s.grid r c) ∧
    (SpriteHits s (s.regs X % 64) (s.regs Y % 32) (min (32 - s.regs Y % 32) N)
        (min (64 - s.regs X % 64) 8) → (opDraw X Y N s).regs 0xF = 1) ∧
    (¬ SpriteHits s (s.regs X % 64) (s.regs Y % 32) (min (32 - s.regs Y % 32) N)
        (min (64 - s.regs X % 64) 8) → (opDraw X Y N s).regs 0xF = 0) := by
  obtain ⟨pf, pg, phit, pmiss⟩ := drawSprite_spec (s.regs X % 64) (s.regs Y % 32)
    (min (32 - s.regs Y % 32) N) (min (64 - s.regs X % 64) 8)
    { s with regs := Function.update s.regs 0xF 0 }
  have hf : DrawFrame s { s with regs := Function.update s.regs 0xF 0 } :=
    ⟨rfl, rfl, rfl, fun r hr => Function.update_noteq hr _ _, rfl, rfl, rfl, rfl, rfl, rfl, rfl⟩
  refine ⟨hf.trans pf, pg, phit, ?_⟩
  intro h
  have := pmiss h
  simpa using this

/-- Fetching and executing `DXYN`. -/
theorem step_draw (inp : Input) (s : State) (X Y N : Nat)
    (hX : X < 16) (hY : Y < 16) (hN : N < 16)
    (h0 : s.mem s.pc = 0xD0 + X) (h1 : s.mem (s.pc + 1) = 16 * Y + N) :
    (step inp s).mem = s.mem ∧ (step inp s).I = s.I ∧
    (step inp s).pc = (s.pc + 2) % 65536 ∧
    (∀ r, r ≠ 0xF → (step inp s).regs r = s.regs r) ∧
    (∀ r c, (step inp s).grid r c =
      if SpriteCovers s (s.regs X % 64) (s.regs Y % 32) (min (32 - s.regs Y % 32) N)
          (min (64 - s.regs X % 64) 8) r c then
        oneMinusU32 (s.grid r c) else s.grid r c) ∧
    (SpriteHits s (s.regs X % 64) (s.regs Y % 32) (min (32 - s.regs Y % 32) N)
        (min (64 - s.regs X % 64) 8) → (step inp s).regs 0xF = 1) ∧
    (¬ SpriteHits s (s.regs X % 64) (s.regs Y % 32) (min (32 - s.regs Y % 32) N)
        (min (64 - s.regs X % 64) 8) → (step inp s).regs 0xF = 0) := by
  have e : step inp s = opDraw X Y N { s with pc := (s.pc + 2) % 65536 } := by
    rw [step_decode inp s 13 X Y N hX hN h0 h1 (by decide) hY]
    simp [execute]
  obtain ⟨pf, pg, phit, pmiss⟩ := opDraw_spec X Y N { s with pc := (s.pc + 2) % 65536 }
  rw [e]
  exact ⟨pf.mem, pf.I, pf.pc, pf.regs, pg, phit, pmiss⟩

theorem oneMinusU32_involutive (g : Nat) (h : g < 4294967296) :
    oneMinusU32 (oneMinusU32 g) = g := by
  unfold oneMinusU32
  omega

theorem oneMinusU32_bit (g : Nat) (h : g ≤ 1) : oneMinusU32 g = g ^^^ 1 := by
  interval_cases g <;> decide

theorem spriteCovers_visible (s : State) (x y N r c : Nat) :
    SpriteCovers s x y (min (32 - y) N) (min (64 - x) 8) r c ↔
      ∃ i j, i < 8 ∧ j < N ∧ x + i < 64 ∧ y + j < 32 ∧ r = y + j ∧ c = x + i ∧
        (s.mem (s.I + j)).testBit (7 - i) = true := by
  constructor
  · rintro ⟨h1, h2, h3, h4, h5⟩
    exact ⟨c - x, r - y, by omega, by omega, by omega, by omega, by omega, by omega, h5⟩
  · rintro ⟨i, j, hi, hj, hx, hy, hr, hc, hb⟩
    subst hr hc
    have e1 : y + j - y = j := by omega
    have e2 : x + i - x = i := by omega
    exact ⟨by omega, by omega, by omega, by omega, by rw [e1, e2]; exact hb⟩

theorem spriteHits_visible (s : State) (x y N : Nat) :
    SpriteHits s x y (min (32 - y) N) (min (64 - x) 8) ↔
      ∃ i j, i < 8 ∧ j < N ∧ x + i < 64 ∧ y + j < 32 ∧
        (s.mem (s.I + j)).testBit (7 - i) = true ∧ s.grid (y + j) (x + i) ≠ 0 := by
  constructor
  · rintro ⟨j, i, hj, hi, hb, hne⟩
    exact ⟨i, j, by omega, by omega, by omega, by omega, hb, hne⟩
  · rintro ⟨i, j, hi, hj, hx, hy, hb, hne⟩
    exact ⟨j, i, by omega, by omega, hb, hne⟩

theorem exDraw_isBitmap : exDraw.IsBitmap := by
  intro y x
  show (if y = 31 ∧ x = 62 then 1 else 0) ≤ 1
  split_ifs <;> decide

/-- C7: for `DXYN` with x0 = VX mod 64 and y0 = VY mod 32, each bitmap pixel
(x0 + i, y0 + j) with i < 8, j < N, x0 + i < 64, y0 + j < 32 becomes its old
value XOR bit 7 - i of mem[I + j]; every other pixel is unchanged; the pixel a
clipped row or column would wrap to on the opposite edge is unchanged; and no
cell outside the 64x32 grid is written. -/
theorem draw_DXYN_bitmap (inp : Input) (s : State) (X Y N : Nat)
    (hX : X < 16) (hY : Y < 16) (hN : N < 16)
    (h0 : s.mem s.pc = 0xD0 + X) (h1 : s.mem (s.pc + 1) = 16 * Y + N)
    (hbm : s.IsBitmap) :
    (∀ i j, i < 8 → j < N → s.regs X % 64 + i < 64 → s.regs Y % 32 + j < 32 →
      (step inp s).grid (s.regs Y % 32 + j) (s.regs X % 64 + i) =
        s.grid (s.regs Y % 32 + j) (s.regs X % 64 + i) ^^^
          (if (s.mem (s.I + j)).testBit (7 - i) = true then 1 else 0)) ∧
    (∀ r c, (¬ ∃ i j, i < 8 ∧ j < N ∧ s.regs X % 64 + i < 64 ∧ s.regs Y % 32 + j < 32 ∧
        r = s.regs Y % 32 + j ∧ c = s.regs X % 64 + i) →
      (step inp s).grid r c = s.grid r c) ∧
    (∀ i j, i < 8 → j < N → (64 ≤ s.regs X % 64 + i ∨ 32 ≤ s.regs Y % 32 + j) →
      (step inp s).grid ((s.regs Y % 32 + j) % 32) ((s.regs X % 64 + i) % 64) =
        s.grid ((s.regs Y % 32 + j) % 32) ((s.regs X % 64 + i) % 64)) ∧
    (∀ r c, (32 ≤ r ∨ 64 ≤ c) → (step inp s).grid r c = s.grid r c) := by
  obtain ⟨-, -, -, -, pg, -, -⟩ := step_draw inp s X Y N hX hY hN h0 h1
  have outside : ∀ r c, (¬ ∃ i j, i < 8 ∧ j < N ∧ s.regs X % 64 + i < 64 ∧
      s.regs Y % 32 + j < 32 ∧ r = s.regs Y % 32 + j ∧ c = s.regs X % 64 + i) →
      (step inp s).grid r c = s.grid r c := by
    intro r c h
    rw [pg, if_neg]
    rw [spriteCovers_visible]
    rintro ⟨i, j, hi, hj, hx, hy, hr, hc, -⟩
    exact h ⟨i, j, hi, hj, hx, hy, hr, hc⟩
  refine ⟨?_, outside, ?_, ?_⟩
  · intro i j hi hj hx hy
    rw [pg]
    by_cases hb : (s.mem (s.I + j)).testBit (7 - i) = true
    · rw [if_pos ((spriteCovers_visible _ _ _ _ _ _).2 ⟨i, j, hi, hj, hx, hy, rfl, rfl, hb⟩),
        if_pos hb]
      exact oneMinusU32_bit _ (hbm _ _)
    · rw [if_neg hb, if_neg]
      · simp
      · rw [spriteCovers_visible]
        rintro ⟨i', j', -, -, -, -, hr, hc, hb'⟩
        have ei : i' = i := by omega
        have ej : j' = j := by omega
        subst ei ej
        exact hb hb'
  · intro i j hi hj hw
    apply outside
    rintro ⟨i', j', hi', hj', hx', hy', hr, hc⟩
    omega
  · intro r c hrc
    apply outside
    rintro ⟨i', j', hi', hj', hx', hy', hr, hc⟩
    omega

theorem draw_DXYN_bitmap_witness :
    ((step quiet exDraw).grid 31 62 = exDraw.grid 31 62 ^^^
        (if (exDraw.mem (exDraw.I + 0)).testBit (7 - 0) = true then 1 else 0) ∧
      (step quiet exDraw).grid 31 63 = exDraw.grid 31 63 ^^^
        (if (exDraw.mem (exDraw.I + 0)).testBit (7 - 1) = true then 1 else 0)) ∧
    (step quiet exDraw).grid 30 62 = exDraw.grid 30 62 ∧
    ((step quiet exDraw).grid 31 0 = exDraw.grid 31 0 ∧
      (step quiet exDraw).grid 0 62 = exDraw.grid 0 62) ∧
    (step quiet exDraw).grid 32 62 = exDraw.grid 32 62 :=
  have hx : exDraw.regs 1 % 64 = 62 := by decide
  have hy : exDraw.regs 2 % 32 = 31 := by decide
  have h := draw_DXYN_bitmap quiet exDraw 1 2 2 (by decide) (by decide) (by decide)
    (by decide) (by decide) exDraw_isBitmap
  ⟨⟨h.1 0 0 (by decide) (by decide) (by decide) (by decide),
    h.1 1 0 (by decide) (by decide) (by decide) (by decide)⟩,
   h.2.1 30 62 (by rintro ⟨i, j, -, -, -, -, hr, -⟩; omega),
   ⟨h.2.2.1 2 0 (by decide) (by decide) (by decide),
    h.2.2.1 0 1 (by decide) (by decide) (by decide)⟩,
   h.2.2.2 32 62 (by decide)⟩

/-- C6: after `DXYN` the flag register VF is 1 exactly when some set sprite bit
inside the visible area landed on a bitmap pixel that was set before the draw,
and 0 otherwise; every such pixel is unset after the draw; VF is 0 when N = 0
and when the sprite bytes are all zero. -/
theorem draw_DXYN_collision_flag (inp : Input) (s : State) (X Y N : Nat)
    (hX : X < 16) (hY : Y < 16) (hN : N < 16)
    (h0 : s.mem s.pc = 0xD0 + X) (h1 : s.mem (s.pc + 1) = 16 * Y + N)
    (hbm : s.IsBitmap) :
    ((step inp s).regs 0xF = 1 ↔
      ∃ i j, i < 8 ∧ j < N ∧ s.regs X % 64 + i < 64 ∧ s.regs Y % 32 + j < 32 ∧
        (s.mem (s.I + j)).testBit (7 - i) = true ∧
        s.grid (s.regs Y % 32 + j) (s.regs X % 64 + i) = 1) ∧
    ((step inp s).regs 0xF = 0 ↔
      ¬ ∃ i j, i < 8 ∧ j < N ∧ s.regs X % 64 + i < 64 ∧ s.regs Y % 32 + j < 32 ∧
        (s.mem (s.I + j)).testBit (7 - i) = true ∧
        s.grid (s.regs Y % 32 + j) (s.regs X % 64 + i) = 1) ∧
    (∀ i j, i < 8 → j < N → s.regs X % 64 + i < 64 → s.regs Y % 32 + j < 32 →
      (s.mem (s.I + j)).testBit (7 - i) = true →
      s.grid (s.regs Y % 32 + j) (s.regs X % 64 + i) = 1 →
      (step inp s).grid (s.regs Y % 32 + j) (s.regs X % 64 + i) = 0) ∧
    (N = 0 → (step inp s).regs 0xF = 0) ∧
    ((∀ j, j < N → s.mem (s.I + j) = 0) → (step inp s).regs 0xF = 0) := by
  obtain ⟨-, -, -, -, pg, phit, pmiss⟩ := step_draw inp s X Y N hX hY hN h0 h1
  rw [spriteHits_visible] at phit pmiss
  have hset : (∃ i j, i < 8 ∧ j < N ∧ s.regs X % 64 + i < 64 ∧ s.regs Y % 32 + j < 32 ∧
        (s.mem (s.I + j)).testBit (7 - i) = true ∧
        s.grid (s.regs Y % 32 + j) (s.regs X % 64 + i) = 1) ↔
      (∃ i j, i < 8 ∧ j < N ∧ s.regs X % 64 + i < 64 ∧ s.regs Y % 32 + j < 32 ∧
        (s.mem (s.I + j)).testBit (7 - i) = true ∧
        s.grid (s.regs Y % 32 + j) (s.regs X % 64 + i) ≠ 0) := by
    constructor
    · rintro ⟨i, j, hi, hj, hx, hy, hb, hg⟩
      exact ⟨i, j, hi, hj, hx, hy, hb, by rw [hg]; decide⟩
    · rintro ⟨i, j, hi, hj, hx, hy, hb, hg⟩
      have := hbm (s.regs Y % 32 + j) (s.regs X % 64 + i)
      exact ⟨i, j, hi, hj, hx, hy, hb, by omega⟩
  rw [hset]
  have hzero : (¬ ∃ i j, i < 8 ∧ j < N ∧ s.regs X % 64 + i < 64 ∧ s.regs Y % 32 + j < 32 ∧
        (s.mem (s.I + j)).testBit (7 - i) = true ∧
        s.grid (s.regs Y % 32 + j) (s.regs X % 64 + i) ≠ 0) → (step inp s).regs 0xF = 0 :=
    pmiss
  refine ⟨?_, ?_, ?_, ?_, ?_⟩
  · constructor
    · intro h
      by_contra hno
      rw [pmiss hno] at h
      exact absurd h (by decide)
    · exact phit
  · constructor
    · intro h hyes
      rw [phit hyes] at h
      exact absurd h (by decide)
    · exact pmiss
  · intro i j hi hj hx hy hb hg
    rw [pg, if_pos ((spriteCovers_visible _ _ _ _ _ _).2 ⟨i, j, hi, hj, hx, hy, rfl, rfl, hb⟩),
      hg]
    decide
  · intro hN0
    apply hzero
    rintro ⟨i, j, -, hj, -⟩
    omega
  · intro hz
    apply hzero
    rintro ⟨i, j, -, hj, -, -, hb, -⟩
    rw [hz j hj] at hb
    simp at hb

theorem draw_DXYN_collision_flag_witness :
    (step quiet exDraw).regs 0xF = 1 ∧ (step quiet exDraw).grid 31 62 = 0 :=
  have h := draw_DXYN_collision_flag quiet exDraw 1 2 2 (by decide) (by decide) (by decide)
    (by decide) (by decide) exDraw_isBitmap
  ⟨h.1.2 ⟨0, 0, by decide, by decide, by decide, by decide, by decide, by decide⟩,
   h.2.2.1 0 0 (by decide) (by decide) (by decide) (by decide) (by decide) (by decide)⟩

/-- Two `DXYN` in a row with X and Y other than 0xF: the second draw finds the
same sprite at the same place over the bitmap the first draw left. -/
theorem step_draw_twice (inp1 inp2 : Input) (s : State) (X Y N : Nat)
    (hX : X < 16) (hY : Y < 16) (hN : N < 16) (hXF : X ≠ 0xF) (hYF : Y ≠ 0xF)
    (hpc : s.pc + 3 < 4096)
    (h0 : s.mem s.pc = 0xD0 + X) (h1 : s.mem (s.pc + 1) = 16 * Y + N)
    (h2 : s.mem (s.pc + 2) = 0xD0 + X) (h3 : s.mem (s.pc + 3) = 16 * Y + N) :
    (∀ r c, (step inp2 (step inp1 s)).grid r c =
      if SpriteCovers s (s.regs X % 64) (s.regs Y % 32) (min (32 - s.regs Y % 32) N)
          (min (64 - s.regs X % 64) 8) r c then
        oneMinusU32 (oneMinusU32 (s.grid r c)) else s.grid r c) ∧
    ((∃ i j, i < 8 ∧ j < N ∧ s.regs X % 64 + i < 64 ∧ s.regs Y % 32 + j < 32 ∧
        (s.mem (s.I + j)).testBit (7 - i) = true ∧
        oneMinusU32 (s.grid (s.regs Y % 32 + j) (s.regs X % 64 + i)) ≠ 0) →
      (step inp2 (step inp1 s)).regs 0xF = 1) ∧
    ((¬ ∃ i j, i < 8 ∧ j < N ∧ s.regs X % 64 + i < 64 ∧ s.regs Y % 32 + j < 32 ∧
        (s.mem (s.I + j)).testBit (7 - i) = true ∧
        oneMinusU32 (s.grid (s.regs Y % 32 + j) (s.regs X % 64 + i)) ≠ 0) →
      (step inp2 (step inp1 s)).regs 0xF = 0) := by
  obtain ⟨am, aI, apc, ar, ag, -, -⟩ := step_draw inp1 s X Y N hX hY hN h0 h1
  have apc' : (step inp1 s).pc = s.pc + 2 := by rw [apc]; omega
  have b0 : (step inp1 s).mem (step inp1 s).pc = 0xD0 + X := by rw [am, apc', h2]
  have b1 : (step inp1 s).mem ((step inp1 s).pc + 1) = 16 * Y + N := by rw [am, apc', h3]
  obtain ⟨-, -, -, -, bg, bhit, bmiss⟩ := step_draw inp2 (step inp1 s) X Y N hX hY hN b0 b1
  rw [ar X hXF, ar Y hYF] at bg bhit bmiss
  have hcov : ∀ r c, SpriteCovers (step inp1 s) (s.regs X % 64) (s.regs Y % 32)
      (min (32 - s.regs Y % 32) N) (min (64 - s.regs X % 64) 8) r c ↔
      SpriteCovers s (s.regs X % 64) (s.regs Y % 32)
      (min (32 - s.regs Y % 32) N) (min (64 - s.regs X % 64) 8) r c := by
    intro r c
    unfold SpriteCovers
    rw [am, aI]
  have hcell : ∀ i j, i < 8 → j < N → s.regs X % 64 + i < 64 → s.regs Y % 32 + j < 32 →
      (s.mem (s.I + j)).testBit (7 - i) = true →
      (step inp1 s).grid (s.regs Y % 32 + j) (s.regs X % 64 + i) =
        oneMinusU32 (s.grid (s.regs Y % 32 + j) (s.regs X % 64 + i)) := by
    intro i j hi hj hx hy hb
    rw [ag, if_pos ((spriteCovers_visible _ _ _ _ _ _).2 ⟨i, j, hi, hj, hx, hy, rfl, rfl, hb⟩)]
  have hhits : SpriteHits (step inp1 s) (s.regs X % 64) (s.regs Y % 32)
      (min (32 - s.regs Y % 32) N) (min (64 - s.regs X % 64) 8) ↔
      ∃ i j, i < 8 ∧ j < N ∧ s.regs X % 64 + i < 64 ∧ s.regs Y % 32 + j < 32 ∧
        (s.mem (s.I + j)).testBit (7 - i) = true ∧
        oneMinusU32 (s.grid (s.regs Y % 32 + j) (s.regs X % 64 + i)) ≠ 0 := by
    rw [spriteHits_visible, am, aI]
    constructor
    · rintro ⟨i, j, hi, hj, hx, hy, hb, hg⟩
      rw [hcell i j hi hj hx hy hb] at hg
      exact ⟨i, j, hi, hj, hx, hy, hb, hg⟩
    · rintro ⟨i, j, hi, hj, hx, hy, hb, hg⟩
      rw [← hcell i j hi hj hx hy hb] at hg
      exact ⟨i, j, hi, hj, hx, hy, hb, hg⟩
  refine ⟨?_, fun h => bhit (hhits.2 h), fun h => bmiss (fun h' => h (hhits.1 h'))⟩
  intro r c
  rw [bg]
  by_cases hc : SpriteCovers s (s.regs X % 64) (s.regs Y % 32)
      (min (32 - s.regs Y % 32) N) (min (64 - s.regs X % 64) 8) r c
  · rw [if_pos ((hcov r c).2 hc), if_pos hc, ag, if_pos hc]
  · rw [if_neg (fun h => hc ((hcov r c).1 h)), if_neg hc, ag, if_neg hc]

/-- C4: with X and Y other than 0xF, N in 0..15 and I + N <= 4096, executing
`DXYN` twice in a row returns the display bitmap to exactly its state before the
first draw. -/
theorem draw_twice_restores_bitmap (inp1 inp2 : Input) (s : State) (X Y N : Nat)
    (hX : X < 16) (hY : Y < 16) (hN : N < 16) (hXF : X ≠ 0xF) (hYF : Y ≠ 0xF)
    (_hI : s.I + N ≤ 4096) (hpc : s.pc + 3 < 4096)
    (h0 : s.mem s.pc = 0xD0 + X) (h1 : s.mem (s.pc + 1) = 16 * Y + N)
    (h2 : s.mem (s.pc + 2) = 0xD0 + X) (h3 : s.mem (s.pc + 3) = 16 * Y + N)
    (hg : ∀ y x, s.grid y x < 4294967296) :
    (step inp2 (step inp1 s)).grid = s.grid := by
  obtain ⟨pg, -, -⟩ := step_draw_twice inp1 inp2 s X Y N hX hY hN hXF hYF hpc h0 h1 h2 h3
  funext r c
  rw [pg, oneMinusU32_involutive _ (hg r c)]
  split_ifs <;> rfl

theorem exDraw_grid_lt (y x : Nat) : exDraw.grid y x < 4294967296 :=
  Nat.lt_of_le_of_lt (exDraw_isBitmap y x) (by decide)

theorem draw_twice_restores_bitmap_witness :
    (step quiet (step quiet exDraw)).grid = exDraw.grid :=
  draw_twice_restores_bitmap quiet quiet exDraw 1 2 2 (by decide) (by decide) (by decide)
    (by decide) (by decide) (by decide) (by decide) (by decide) (by decide) (by decide)
    (by decide) exDraw_grid_lt

/-- C5 (amended): with X and Y other than 0xF, after drawing the same sprite at
the same location twice with `DXYN`, the flag register VF is 1 after the second
draw exactly when the sprite has a set bit inside the visible area that lies on
a pixel that was unset before the first draw, and 0 otherwise (in particular 0
when every set visible bit lay on a pixel that was already set). -/
theorem draw_twice_flag (inp1 inp2 : Input) (s : State) (X Y N : Nat)
    (hX : X < 16) (hY : Y < 16) (hN : N < 16) (hXF : X ≠ 0xF) (hYF : Y ≠ 0xF)
    (hpc : s.pc + 3 < 4096)
    (h0 : s.mem s.pc = 0xD0 + X) (h1 : s.mem (s.pc + 1) = 16 * Y + N)
    (h2 : s.mem (s.pc + 2) = 0xD0 + X) (h3 : s.mem (s.pc + 3) = 16 * Y + N)
    (hbm : s.IsBitmap) :
    ((∃ i j, i < 8 ∧ j < N ∧ s.regs X % 64 + i < 64 ∧ s.regs Y % 32 + j < 32 ∧
        (s.mem (s.I + j)).testBit (7 - i) = true ∧
        s.grid (s.regs Y % 32 + j) (s.regs X % 64 + i) = 0) →
      (step inp2 (step inp1 s)).regs 0xF = 1) ∧
    ((¬ ∃ i j, i < 8 ∧ j < N ∧ s.regs X % 64 + i < 64 ∧ s.regs Y % 32 + j < 32 ∧
        (s.mem (s.I + j)).testBit (7 - i) = true ∧
        s.grid (s.regs Y % 32 + j) (s.regs X % 64 + i) = 0) →
      (step inp2 (step inp1 s)).regs 0xF = 0) := by
  obtain ⟨-, phit, pmiss⟩ := step_draw_twice inp1 inp2 s X Y N hX hY hN hXF hYF hpc h0 h1 h2 h3
  have hflip : ∀ g, g ≤ 1 → (oneMinusU32 g ≠ 0 ↔ g = 0) := by
    intro g hg
    interval_cases g <;> decide
  constructor
  · rintro ⟨i, j, hi, hj, hx, hy, hb, h⟩
    exact phit ⟨i, j, hi, hj, hx, hy, hb, (hflip _ (hbm _ _)).2 h⟩
  · intro hno
    apply pmiss
    rintro ⟨i, j, hi, hj, hx, hy, hb, h⟩
    exact hno ⟨i, j, hi, hj, hx, hy, hb, (hflip _ (hbm _ _)).1 h⟩

theorem draw_twice_flag_witness : (step quiet (step quiet exDraw)).regs 0xF = 1 :=
  (draw_twice_flag quiet quiet exDraw 1 2 2 (by decide) (by decide) (by decide)
    (by decide) (by decide) (by decide) (by decide) (by decide) (by decide) (by decide)
    exDraw_isBitmap).1 ⟨1, 0, by decide, by decide, by decide, by decide, by decide, by decide⟩

/-- C5 as stated fails: `D011` twice with the sprite byte `80` at I, V0 = V1 = 0
and the pixel at column 0 of row 0 already set. The sprite has a set bit
inside the visible area, yet VF is 0 after the second draw: the first draw
cleared the pixel (VF = 1), the second sets it again without a collision. -/
theorem draw_twice_flag_counterexample :
    exDrawOn.mem exDrawOn.pc = 0xD0 + 0 ∧ exDrawOn.mem (exDrawOn.pc + 1) = 16 * 1 + 1 ∧
    exDrawOn.mem (exDrawOn.pc + 2) = 0xD0 + 0 ∧ exDrawOn.mem (exDrawOn.pc + 3) = 16 * 1 + 1 ∧
    exDrawOn.regs 0 % 64 + 0 < 64 ∧ exDrawOn.regs 1 % 32 + 0 < 32 ∧
    (exDrawOn.mem (exDrawOn.I + 0)).testBit (7 - 0) = true ∧
    (step quiet exDrawOn).regs 0xF = 1 ∧
    (step quiet (step quiet exDrawOn)).regs 0xF = 0 ∧
    ¬ ((step quiet (step quiet exDrawOn)).regs 0xF = 1) := by
  decide

/-! ## The bitmap stays a bitmap -/

theorem blank_isBitmap : blank.IsBitmap := fun _ _ => Nat.zero_le 1

theorem setPixel_isBitmap (x y color : Nat) (s : State) (hc : color ≤ 1) (h : s.IsBitmap) :
    (setPixel x y color s).IsBitmap := by
  intro r c
  rw [setPixel_grid]
  split_ifs
  · exact hc
  · exact h r c

theorem opClear_isBitmap (s : State) (h : s.IsBitmap) : (opClear s).IsBitmap := by
  unfold opClear
  refine forLoop_invariant (fun _ u => u.IsBitmap) _ s _ h ?_
  intro x t _ ht
  refine forLoop_invariant (fun _ u => u.IsBitmap) _ t _ ht ?_
  intro y u _ hu
  exact setPixel_isBitmap x y 0 u (by decide) hu

theorem opDraw_isBitmap (X Y N : Nat) (s : State) (h : s.IsBitmap) :
    (opDraw X Y N s).IsBitmap := by
  obtain ⟨-, pg, -, -⟩ := opDraw_spec X Y N s
  intro r c
  rw [pg]
  split_ifs
  · have := h r c
    unfold oneMinusU32
    omega
  · exact h r c

theorem opStore_grid (X : Nat) (s : State) : (opStore X s).grid = s.grid := by
  have e : (forLoop (X + 1) (fun i (t : State) =>
      { t with mem := Function.update t.mem (t.I + i) (t.regs i) }) s).grid = s.grid :=
    forLoop_invariant (fun _ (u : State) => u.grid = s.grid) _ s _ rfl (fun _ _ _ ht => ht)
  unfold opStore
  split_ifs <;> exact e

theorem opLoad_grid (X : Nat) (s : State) : (opLoad X s).grid = s.grid := by
  have e : (forLoop (X + 1) (fun i (t : State) =>
      { t with regs := Function.update t.regs i (t.mem (t.I + i)) }) s).grid = s.grid :=
    forLoop_invariant (fun _ (u : State) => u.grid = s.grid) _ s _ rfl (fun _ _ _ ht => ht)
  unfold opLoad
  split_ifs <;> exact e

theorem ite_isBitmap {c : Prop} [Decidable c] {a b : State}
    (ha : a.IsBitmap) (hb : b.IsBitmap) : (if c then a else b).IsBitmap := by
  split_ifs
  · exact ha
  · exact hb

theorem isBitmap_of_grid {t u : State} (e : u.grid = t.grid) (h : t.IsBitmap) :
    u.IsBitmap := by
  intro r c
  rw [e]
  exact h r c

theorem op0_isBitmap (NNN : Nat) (t : State) (h1 : t.IsBitmap) : (op0 NNN t).IsBitmap := by
  unfold op0
  exact ite_isBitmap (opClear_isBitmap t h1) (ite_isBitmap h1 h1)

theorem op8_isBitmap (X Y N : Nat) (t : State) (h1 : t.IsBitmap) :
    (op8 X Y N t).IsBitmap := by
  unfold op8
  repeat' apply ite_isBitmap
  all_goals exact h1

theorem opE_isBitmap (X NN : Nat) (t : State) (h1 : t.IsBitmap) : (opE X NN t).IsBitmap := by
  unfold opE skip
  repeat' apply ite_isBitmap
  all_goals exact h1

theorem opF_isBitmap (inp : Input) (X NN : Nat) (t : State) (h1 : t.IsBitmap) :
    (opF inp X NN t).IsBitmap := by
  unfold opF
  refine ite_isBitmap h1 (ite_isBitmap ?_ (ite_isBitmap h1 (ite_isBitmap h1 (ite_isBitmap h1
    (ite_isBitmap h1 (ite_isBitmap h1 (ite_isBitmap ?_ (ite_isBitmap ?_ h1))))))))
  · have ha : State.IsBitmap { t with pc := (t.pc + 65536 - 2) % 65536 } := fun r c => h1 r c
    have hb : State.IsBitmap { t with regs := Function.update t.regs X (inp.lastKey % 256) } :=
      fun r c => h1 r c
    exact fun r c => ite_isBitmap (c := (!inp.anyKeyPressed) = true) ha hb r c
  · exact isBitmap_of_grid (opStore_grid X t) h1
  · exact isBitmap_of_grid (opLoad_grid X t) h1

/-- Every case of the `switch (code)` keeps the cells of the bitmap in {0, 1}. -/
theorem execute_isBitmap (inp : Input) (code X Y N NN NNN : Nat) (t : State)
    (h1 : t.IsBitmap) : (execute inp code X Y N NN NNN t).IsBitmap := by
  have hs : (skip t).IsBitmap := h1
  unfold execute
  refine ite_isBitmap (op0_isBitmap NNN t h1) (ite_isBitmap h1 (ite_isBitmap h1
    (ite_isBitmap (ite_isBitmap hs h1) (ite_isBitmap (ite_isBitmap hs h1)
    (ite_isBitmap (ite_isBitmap hs h1) (ite_isBitmap h1 (ite_isBitmap h1
    (ite_isBitmap (op8_isBitmap X Y N t h1) (ite_isBitmap (ite_isBitmap hs h1)
    (ite_isBitmap h1 (ite_isBitmap h1 (ite_isBitmap h1
    (ite_isBitmap (opDraw_isBitmap X Y N t h1) (ite_isBitmap (opE_isBitmap X NN t h1)
    (ite_isBitmap (opF_isBitmap inp X NN t h1) h1)))))))))))))))

/-- Every instruction keeps the cells of the bitmap in {0, 1}. -/
theorem step_isBitmap (inp : Input) (s : State) (h : s.IsBitmap) : (step inp s).IsBitmap :=
  execute_isBitmap inp _ _ _ _ _ _ { s with pc := (s.pc + 2) % 65536 } h

theorem pollEvents_grid (events : List Event) (s : State) :
    (pollEvents events s).st.grid = s.grid := by
  have key : ∀ (l : List Event) (p : PollState), (l.foldl handleEvent p).st.grid = p.st.grid := by
    intro l
    induction l with
    | nil => intro p; rfl
    | cons e rest ih =>
      intro p
      rw [List.foldl_cons, ih]
      cases e <;> rfl
  exact key events _

/-- Every pass through the loop body keeps the cells of the bitmap in {0, 1}. -/
theorem loopIteration_isBitmap (events : List Event) (rnd : Nat) (s : State)
    (h : s.IsBitmap) : (loopIteration events rnd s).IsBitmap :=
  step_isBitmap _ _ (isBitmap_of_grid (pollEvents_grid events s) h)

/-! ## Decoding as a function (`decode`) -/

theorem step_eq_execute_decode (inp : Input) (s : State) :
    step inp s =
      execute inp (decode (s.mem s.pc) (s.mem (s.pc + 1))).code
        (decode (s.mem s.pc) (s.mem (s.pc + 1))).regX
        (decode (s.mem s.pc) (s.mem (s.pc + 1))).regY
        (decode (s.mem s.pc) (s.mem (s.pc + 1))).N
        (decode (s.mem s.pc) (s.mem (s.pc + 1))).NN
        (decode (s.mem s.pc) (s.mem (s.pc + 1))).NNN
        { s with pc := (s.pc + 2) % 65536 } := rfl

/-- C13: for instruction bytes b0, b1 in 0..255 decoding yields class = b0 / 16,
X = b0 mod 16, Y = b1 / 16, N = b1 mod 16, NN = b1 and
NNN = (b0 mod 16) * 256 + b1; so class, X, Y, N < 16, NN < 256, NNN < 4096, and
the 16-bit word b0 * 256 + b1 equals class * 4096 + X * 256 + Y * 16 + N. -/
theorem decode_fields (b0 b1 : Nat) (h0 : b0 < 256) (h1 : b1 < 256) :
    (decode b0 b1).code = b0 / 16 ∧ (decode b0 b1).regX = b0 % 16 ∧
    (decode b0 b1).regY = b1 / 16 ∧ (decode b0 b1).N = b1 % 16 ∧
    (decode b0 b1).NN = b1 ∧ (decode b0 b1).NNN = (b0 % 16) * 256 + b1 ∧
    (decode b0 b1).code < 16 ∧ (decode b0 b1).regX < 16 ∧ (decode b0 b1).regY < 16 ∧
    (decode b0 b1).N < 16 ∧ (decode b0 b1).NN < 256 ∧ (decode b0 b1).NNN < 4096 ∧
    b0 * 256 + b1 = (decode b0 b1).code * 4096 + (decode b0 b1).regX * 256 +
      (decode b0 b1).regY * 16 + (decode b0 b1).N := by
  have e1 : (decode b0 b1).code = b0 / 16 := by
    show _nibble1 b0 = b0 / 16
    rw [nibble1_eq]; omega
  have e2 : (decode b0 b1).regX = b0 % 16 := nibble2_eq b0
  have e3 : (decode b0 b1).regY = b1 / 16 := by
    show _nibble1 b1 = b1 / 16
    rw [nibble1_eq]; omega
  have e4 : (decode b0 b1).N = b1 % 16 := nibble2_eq b1
  have e5 : (decode b0 b1).NN = b1 := rfl
  have e6 : (decode b0 b1).NNN = (b0 % 16) * 256 + b1 := by
    show (_nibble2 b0 <<< 8) + b1 = (b0 % 16) * 256 + b1
    rw [nibble2_eq, Nat.shiftLeft_eq]
  rw [e1, e2, e3, e4, e5, e6]
  refine ⟨rfl, rfl, rfl, rfl, rfl, rfl, ?_, ?_, ?_, ?_, ?_, ?_, ?_⟩ <;> omega

theorem decode_fields_witness :
    (decode 0xD1 0x25).code = 0xD ∧ (decode 0xD1 0x25).regX = 1 ∧
    (decode 0xD1 0x25).regY = 2 ∧ (decode 0xD1 0x25).N = 5 ∧
    (decode 0xD1 0x25).NN = 0x25 ∧ (decode 0xD1 0x25).NNN = 0x125 :=
  have h := decode_fields 0xD1 0x25 (by decide) (by decide)
  ⟨h.1, h.2.1, h.2.2.1, h.2.2.2.1, h.2.2.2.2.1, h.2.2.2.2.2.1⟩

/-! ## Words without a handler -/

theorem handleEvent_pollFrame (p : PollState) (e : Event) :
    PollFrame p.st (handleEvent p e).st := by
  cases e <;> exact ⟨rfl, rfl, rfl, rfl, rfl, rfl, rfl, rfl, rfl, rfl⟩

theorem pollFrame_trans {a b c : State} (h1 : PollFrame a b) (h2 : PollFrame b c) :
    PollFrame a c :=
  ⟨h2.mem.trans h1.mem, h2.pc.trans h1.pc, h2.I.trans h1.I, h2.regs.trans h1.regs,
   h2.stack.trans h1.stack, h2.sp.trans h1.sp, h2.grid.trans h1.grid,
   h2.pixels.trans h1.pixels, h2.delayTimer.trans h1.delayTimer,
   h2.soundTimer.trans h1.soundTimer⟩

theorem pollEvents_pollFrame (events : List Event) (s : State) :
    PollFrame s (pollEvents events s).st := by
  have key : ∀ (l : List Event) (p : PollState), PollFrame p.st (l.foldl handleEvent p).st := by
    intro l
    induction l with
    | nil => intro p; exact ⟨rfl, rfl, rfl, rfl, rfl, rfl, rfl, rfl, rfl, rfl⟩
    | cons e rest ih =>
      intro p
      rw [List.foldl_cons]
      exact pollFrame_trans (handleEvent_pollFrame p e) (ih _)
  exact key events { st := s, anyKeyPressed := false, lastKey := 0 }

/-- The `switch` does nothing on a word without a handler. -/
theorem execute_unhandled (inp : Input) (d : Decoded) (t : State) (h : Unhandled d) :
    execute inp d.code d.regX d.regY d.N d.NN d.NNN t = t := by
  rcases h with ⟨hc, h1, h2⟩ | ⟨hc, hn⟩ | ⟨hc, h1, h2⟩ |
    ⟨hc, h1, h2, h3, h4, h5, h6, h7, h8, h9⟩
  · simp only [execute, hc]
    simp [op0, h1, h2]
  · simp only [execute, hc]
    rcases hn with hn | hn | hn | hn | hn | hn | hn <;> simp [op8, hn]
  · simp only [execute, hc]
    simp [opE, h1, h2]
  · simp only [execute, hc]
    simp [opF, h1, h2, h3, h4, h5, h6, h7, h8, h9]

/-- C17: for an instruction word with no matching handler one loop iteration is
a no-op apart from the fetch: the instruction itself changes only PC, which
advances by exactly 2, and after the whole iteration memory, registers, I, the
call stack and stack pointer, the bitmap and both timers are unchanged. -/
theorem unhandled_word_is_noop (events : List Event) (rnd : Nat) (inp : Input) (s : State)
    (hpc : s.pc + 1 < 4096)
    (h : Unhandled (decode (s.mem s.pc) (s.mem (s.pc + 1)))) :
    step inp s = { s with pc := s.pc + 2 } ∧
    (loopIteration events rnd s).pc = s.pc + 2 ∧
    (loopIteration events rnd s).mem = s.mem ∧
    (loopIteration events rnd s).regs = s.regs ∧
    (loopIteration events rnd s).I = s.I ∧
    (loopIteration events rnd s).stack = s.stack ∧
    (loopIteration events rnd s).sp = s.sp ∧
    (loopIteration events rnd s).grid = s.grid ∧
    (loopIteration events rnd s).delayTimer = s.delayTimer ∧
    (loopIteration events rnd s).soundTimer = s.soundTimer := by
  have hmod : (s.pc + 2) % 65536 = s.pc + 2 := by omega
  have key : ∀ (inp : Input) (t : State), t.mem = s.mem → t.pc = s.pc →
      step inp t = { t with pc := s.pc + 2 } := by
    intro inp t hm hp
    rw [step_eq_execute_decode, hm, hp, execute_unhandled inp _ _ h, hmod]
  refine ⟨key inp s rfl rfl, ?_⟩
  have f := pollEvents_pollFrame events s
  have e : loopIteration events rnd s =
      { (pollEvents events s).st with pc := s.pc + 2 } := key _ _ f.mem f.pc
  rw [e]
  exact ⟨rfl, f.mem, f.regs, f.I, f.stack, f.sp, f.grid, f.delayTimer, f.soundTimer⟩

theorem unhandled_word_is_noop_witness :
    step quiet exUnhandled = { exUnhandled with pc := 0x202 } ∧
    (loopIteration [Event.keydown 30, Event.quit] 9 exUnhandled).pc = 0x202 ∧
    (loopIteration [Event.keydown 30, Event.quit] 9 exUnhandled).regs = exUnhandled.regs ∧
    (loopIteration [Event.keydown 30, Event.quit] 9 exUnhandled).delayTimer = 7 :=
  have h := unhandled_word_is_noop [Event.keydown 30, Event.quit] 9 quiet exUnhandled
    (by decide) (Or.inr (Or.inl ⟨by decide, Or.inl (by decide)⟩))
  ⟨h.1, h.2.1, h.2.2.2.1, h.2.2.2.2.2.2.2.2.1⟩

/-! ## Font glyph address (`FX29`) -/

/-- What `FX29` computes: the glyph index is taken with `_nibble1`, the HIGH
nibble of VX. -/
theorem font_FX29_high_nibble (inp : Input) (s : State) (X : Nat) (hX : X < 16)
    (h0 : s.mem s.pc = 0xF0 + X) (h1 : s.mem (s.pc + 1) = 0x29) :
    (step inp s).I = FONT_START + 5 * (s.regs X / 16 % 16) := by
  rw [step_decode inp s 15 X 2 9 hX (by decide) h0 h1 (by decide) (by decide)]
  simp [execute, opF, nibble1_eq]

/-- C14 at a failing input: `F129` with V1 = 0x0A sets I to 0x50, the glyph of
digit 0, where the claim requires FONT_START + 5 * (0x0A mod 16) = 0x82; and
V1 = 0x1A, which has the same low nibble, gives a different I, 0x55. -/
theorem font_FX29_low_nibble_evaluation :
    exFont.mem exFont.pc = 0xF0 + 1 ∧ exFont.mem (exFont.pc + 1) = 0x29 ∧
    exFont.regs 1 = 0x0A ∧
    (step quiet exFont).I = 0x50 ∧ FONT_START + 5 * (exFont.regs 1 % 16) = 0x82 ∧
    exFontHigh.mem exFontHigh.pc = 0xF0 + 1 ∧ exFontHigh.mem (exFontHigh.pc + 1) = 0x29 ∧
    exFontHigh.regs 1 % 16 = exFont.regs 1 % 16 ∧
    (step quiet exFontHigh).I = 0x55 := by
  decide

/-! ## Initialisation (`initMem`, `initFont`) -/

/-- Memory after `initMem(); initFont();`: the first 50 bytes of the font table
at addresses 0..49, zero up to the end of the array. -/
theorem init_memory (s : State) (a : Nat) :
    (initFont (initMem s)).mem a =
      if a < 50 then font.getD a 0 else if a < 4096 then 0 else s.mem a := by
  simp only [initFont, initMem, MEMORY_SIZE]

theorem init_registers (s : State) (r : Nat) (hr : r < 16) :
    (initFont (initMem s)).regs r = 0 := by
  simp [initFont, initMem, N_REGISTERS, hr]

/-- C15 at the start of the program: after `initMem(); initFont();` the byte at
FONT_START is 0 although font[0] is 0xF0, every one of the 80 bytes from
FONT_START on is 0, the glyph of digit 1 at FONT_START + 5 is not in memory, and
the byte at address 0, outside the font region, is 0xF0. -/
theorem init_font_region_evaluation :
    FONT_START = 0x50 ∧ font.length = 80 ∧ font.getD 0 0 = 0xF0 ∧
    (initFont (initMem blank)).mem (FONT_START + 0) = 0 ∧
    (∀ k, k < 80 → (initFont (initMem blank)).mem (FONT_START + k) = 0) ∧
    font.getD 5 0 = 0x20 ∧ (initFont (initMem blank)).mem (FONT_START + 5 * 1) = 0 ∧
    (initFont (initMem blank)).mem 0 = 0xF0 ∧
    (∀ k, k < 50 → (initFont (initMem blank)).mem k = font.getD k 0) := by
  decide

/-! ## Shifts (`8XY6`, `8XYE`) -/

/-- With a destination other than VF the shifts do what is expected of them:
VF receives the bit shifted out of VY and VX the shifted value. -/
theorem shift_other_destination (inp : Input) (s : State) (X Y : Nat)
    (hX : X < 16) (hY : Y < 16) (hXF : X ≠ 0xF) (hv : s.regs Y < 256)
    (h0 : s.mem s.pc = 0x80 + X) :
    (s.mem (s.pc + 1) = 16 * Y + 6 →
      (step inp s).regs 0xF = s.regs Y % 2 ∧ (step inp s).regs X = s.regs Y / 2) ∧
    (s.mem (s.pc + 1) = 16 * Y + 0xE →
      (step inp s).regs 0xF = s.regs Y / 128 ∧
      (step inp s).regs X = (2 * s.regs Y) % 256) := by
  have hFX : (15 : Nat) ≠ X := fun h => hXF h.symm
  constructor
  · intro h1
    rw [step_decode inp s 8 X Y 6 hX (by decide) h0 h1 (by decide) hY]
    simp [execute, op8, SHIFT_USES_Y, Function.update_noteq hXF, Function.update_noteq hFX,
      Nat.and_one_is_mod, Nat.shiftRight_eq_div_pow]
  · intro h1
    rw [step_decode inp s 8 X Y 14 hX (by decide) h0 h1 (by decide) hY]
    simp [execute, op8, SHIFT_USES_Y, Function.update_noteq hXF, Function.update_noteq hFX,
      Nat.and_one_is_mod, Nat.shiftRight_eq_div_pow, Nat.shiftLeft_eq]
    omega

/-- C16 at two failing inputs with X = 0xF: `8F16` with V1 = 1 leaves VF = 0
where the bit shifted out is 1, and `8F1E` with V1 = 0x80 leaves VF = 2 where
the bit shifted out is 1. -/
theorem shift_flag_destination_evaluation :
    exShr.mem exShr.pc = 0x80 + 0xF ∧ exShr.mem (exShr.pc + 1) = 16 * 1 + 6 ∧
    exShr.regs 1 % 2 = 1 ∧ (step quiet exShr).regs 0xF = 0 ∧
    exShl.mem exShl.pc = 0x80 + 0xF ∧ exShl.mem (exShl.pc + 1) = 16 * 1 + 0xE ∧
    exShl.regs 1 / 128 = 1 ∧ (step quiet exShl).regs 0xF = 2 := by
  decide

/-! ## Await-key runs into the delay-timer write (`FX0A`, `FX15`) -/

theorem pollEvents_no_keydown (events : List Event) (s : State)
    (h : ∀ e ∈ events, Event.isKeydown e = false) :
    (pollEvents events s).anyKeyPressed = false :=
  (foldl_handleEvent_no_keydown events { st := s, anyKeyPressed := false, lastKey := 0 } h).1

theorem pollEvents_last_keydown (pre post : List Event) (sc : Nat) (s : State)
    (h : ∀ e ∈ post, Event.isKeydown e = false) :
    (pollEvents (pre ++ Event.keydown sc :: post) s).anyKeyPressed = true ∧
    (pollEvents (pre ++ Event.keydown sc :: post) s).lastKey = keypad sc := by
  have hsplit : pollEvents (pre ++ Event.keydown sc :: post) s =
      post.foldl handleEvent (handleEvent (pre.foldl handleEvent
        { st := s, anyKeyPressed := false, lastKey := 0 }) (Event.keydown sc)) := by
    simp [pollEvents, List.foldl_append]
  obtain ⟨fa, fl⟩ := foldl_handleEvent_no_keydown post (handleEvent (pre.foldl handleEvent
        { st := s, anyKeyPressed := false, lastKey := 0 }) (Event.keydown sc)) h
  rw [← hsplit] at fa fl
  exact ⟨fa, fl⟩

/-- The instruction `FX0A` when the poll saw a key-down event. -/
theorem step_await_key (inp : Input) (s : State) (X : Nat) (hX : X < 16)
    (hpc : s.pc + 1 < 4096)
    (h0 : s.mem s.pc = 0xF0 + X) (h1 : s.mem (s.pc + 1) = 0x0A)
    (hk : inp.anyKeyPressed = true) :
    step inp s = { s with pc := s.pc + 2,
                          regs := Function.update s.regs X (inp.lastKey % 256),
                          delayTimer := ((inp.lastKey % 256 : Nat) : Int) } := by
  rw [step_decode inp s 15 X 0 10 hX (by decide) h0 h1 (by decide) (by decide)]
  have hmod : (s.pc + 2) % 65536 = s.pc + 2 := by omega
  simp [execute, opF, opSetDelay, hk, hmod]

/-- The instruction `FX0A` when the poll saw no key-down event. -/
theorem step_await_no_key (inp : Input) (s : State) (X : Nat) (hX : X < 16)
    (hpc : s.pc + 1 < 4096)
    (h0 : s.mem s.pc = 0xF0 + X) (h1 : s.mem (s.pc + 1) = 0x0A)
    (hk : inp.anyKeyPressed = false) :
    step inp s = { s with delayTimer := (s.regs X : Int) } := by
  rw [step_decode inp s 15 X 0 10 hX (by decide) h0 h1 (by decide) (by decide)]
  simp [execute, opF, opSetDelay, hk]
  omega

/-- C19: `FX0A` runs on into the delay-timer write. When a key was pressed in
the poll (its scancode inside the `keypad` table, at most `MAX_KEYPAD_KEYCODE`),
register X receives the key code and the delay timer is set to the same value;
when no key was pressed, the delay timer is overwritten with the
value of register X and PC is back at the instruction. In both cases the delay
timer afterwards equals register X afterwards and the sound timer is
unchanged. -/
theorem await_key_sets_delay_timer (s : State) (X : Nat) (hX : X < 16)
    (hpc : s.pc + 1 < 4096)
    (h0 : s.mem s.pc = 0xF0 + X) (h1 : s.mem (s.pc + 1) = 0x0A) :
    (∀ pre sc post rnd, sc ≤ MAX_KEYPAD_KEYCODE →
      (∀ e ∈ post, Event.isKeydown e = false) →
      (loopIteration (pre ++ Event.keydown sc :: post) rnd s).regs X = keypad sc ∧
      (loopIteration (pre ++ Event.keydown sc :: post) rnd s).delayTimer = (keypad sc : Int) ∧
      (loopIteration (pre ++ Event.keydown sc :: post) rnd s).pc = s.pc + 2) ∧
    (∀ events rnd, (∀ e ∈ events, Event.isKeydown e = false) →
      (loopIteration events rnd s).delayTimer = (s.regs X : Int) ∧
      (loopIteration events rnd s).regs = s.regs ∧
      (loopIteration events rnd s).pc = s.pc) ∧
    (∀ events rnd,
      (loopIteration events rnd s).delayTimer = ((loopIteration events rnd s).regs X : Int) ∧
      (loopIteration events rnd s).soundTimer = s.soundTimer) ∧
    (∀ inp, (step inp s).delayTimer = ((step inp s).regs X : Int) ∧
      (step inp s).soundTimer = s.soundTimer) := by
  have stepFacts : ∀ (inp : Input) (t : State), t.mem = s.mem → t.pc = s.pc →
      t.soundTimer = s.soundTimer →
      (step inp t).delayTimer = ((step inp t).regs X : Int) ∧
      (step inp t).soundTimer = s.soundTimer := by
    intro inp t hm hp hs
    have t0 : t.mem t.pc = 0xF0 + X := by rw [hm, hp, h0]
    have t1 : t.mem (t.pc + 1) = 0x0A := by rw [hm, hp, h1]
    have tpc : t.pc + 1 < 4096 := by rw [hp]; exact hpc
    by_cases hk : inp.anyKeyPressed = true
    · rw [step_await_key inp t X hX tpc t0 t1 hk]
      simp [hs]
    · rw [step_await_no_key inp t X hX tpc t0 t1 (by simpa using hk)]
      simp [hs]
  refine ⟨?_, ?_, ?_, fun inp => stepFacts inp s rfl rfl rfl⟩
  · intro pre sc post rnd _ h
    have f := pollEvents_pollFrame (pre ++ Event.keydown sc :: post) s
    obtain ⟨ha, hl⟩ := pollEvents_last_keydown pre post sc s h
    have t0 : (pollEvents (pre ++ Event.keydown sc :: post) s).st.mem
        (pollEvents (pre ++ Event.keydown sc :: post) s).st.pc = 0xF0 + X := by
      rw [f.mem, f.pc, h0]
    have t1 : (pollEvents (pre ++ Event.keydown sc :: post) s).st.mem
        ((pollEvents (pre ++ Event.keydown sc :: post) s).st.pc + 1) = 0x0A := by
      rw [f.mem, f.pc, h1]
    have hkp : keypad sc % 256 = keypad sc := Nat.mod_eq_of_lt (by have := keypad_lt sc; omega)
    unfold loopIteration
    simp only []
    rw [step_await_key _ _ X hX (by rw [f.pc]; exact hpc) t0 t1 ha]
    simp [hl, hkp, f.pc]
  · intro events rnd h
    have f := pollEvents_pollFrame events s
    have ha := pollEvents_no_keydown events s h
    have t0 : (pollEvents events s).st.mem (pollEvents events s).st.pc = 0xF0 + X := by
      rw [f.mem, f.pc, h0]
    have t1 : (pollEvents events s).st.mem ((pollEvents events s).st.pc + 1) = 0x0A := by
      rw [f.mem, f.pc, h1]
    unfold loopIteration
    simp only []
    rw [step_await_no_key _ _ X hX (by rw [f.pc]; exact hpc) t0 t1 ha]
    simp [f.regs, f.pc]
  · intro events rnd
    have f := pollEvents_pollFrame events s
    exact stepFacts _ _ f.mem f.pc f.soundTimer

theorem await_key_sets_delay_timer_witness :
    ((loopIteration ([Event.keyup 4] ++ Event.keydown 20 :: [Event.other]) 3
        exAwaitTimers).regs 1 = 4 ∧
      (loopIteration ([Event.keyup 4] ++ Event.keydown 20 :: [Event.other]) 3
        exAwaitTimers).delayTimer = 4 ∧
      (loopIteration ([Event.keyup 4] ++ Event.keydown 20 :: [Event.other]) 3
        exAwaitTimers).pc = 0x202) ∧
    ((loopIteration [Event.keyup 4] 3 exAwaitTimers).delayTimer = 9 ∧
      (loopIteration [Event.keyup 4] 3 exAwaitTimers).regs = exAwaitTimers.regs ∧
      (loopIteration [Event.keyup 4] 3 exAwaitTimers).pc = 0x200) ∧
    (loopIteration [Event.keyup 4] 3 exAwaitTimers).soundTimer = 4 :=
  have h := await_key_sets_delay_timer exAwaitTimers 1 (by decide) (by decide) (by decide)
    (by decide)
  ⟨h.1 [Event.keyup 4] 20 [Event.other] 3 (by decide) (by decide),
   h.2.1 [Event.keyup 4] 3 (by decide),
   (h.2.2.1 [Event.keyup 4] 3).2⟩

/-! ## Bulk store and load (`FX55`, `FX65`) -/

theorem opStore_spec (X : Nat) (s : State) :
    (opStore X s).I = (s.I + (X + 1)) % 65536 ∧ (opStore X s).regs = s.regs ∧
    (opStore X s).pc = s.pc ∧
    (∀ a, (opStore X s).mem a =
      if s.I ≤ a ∧ a < s.I + (X + 1) then s.regs (a - s.I) else s.mem a) := by
  have e := forLoop_invariant (fun k (u : State) =>
      u.I = s.I ∧ u.regs = s.regs ∧ u.pc = s.pc ∧
      (∀ a, u.mem a = if s.I ≤ a ∧ a < s.I + k then s.regs (a - s.I) else s.mem a))
    (fun i (t : State) => { t with mem := Function.update t.mem (t.I + i) (t.regs i) }) s (X + 1)
    ⟨rfl, rfl, rfl, fun a => by rw [if_neg]; omega⟩
    (by
      rintro k t - ⟨hI, hr, hp, hm⟩
      refine ⟨hI, hr, hp, ?_⟩
      intro a
      simp only [hI, hr, Function.update_apply]
      by_cases ha : a = s.I + k
      · subst ha
        rw [if_pos rfl, if_pos ⟨by omega, by omega⟩]
        congr 1
        omega
      · rw [if_neg ha, hm]
        by_cases hc : s.I ≤ a ∧ a < s.I + k
        · rw [if_pos hc, if_pos ⟨hc.1, by omega⟩]
        · rw [if_neg hc, if_neg]
          intro h
          omega)
  obtain ⟨hI, hr, hp, hm⟩ := e
  unfold opStore
  simp only [CHANGE_I, if_true]
  exact ⟨by simp only [hI], hr, hp, hm⟩

theorem opLoad_spec (X : Nat) (s : State) :
    (opLoad X s).I = (s.I + (X + 1)) % 65536 ∧ (opLoad X s).mem = s.mem ∧
    (opLoad X s).pc = s.pc ∧
    (∀ r, (opLoad X s).regs r = if r < X + 1 then s.mem (s.I + r) else s.regs r) := by
  have e := forLoop_invariant (fun k (u : State) =>
      u.I = s.I ∧ u.mem = s.mem ∧ u.pc = s.pc ∧
      (∀ r, u.regs r = if r < k then s.mem (s.I + r) else s.regs r))
    (fun i (t : State) => { t with regs := Function.update t.regs i (t.mem (t.I + i)) }) s (X + 1)
    ⟨rfl, rfl, rfl, fun r => by rw [if_neg]; omega⟩
    (by
      rintro k t - ⟨hI, hm, hp, hr⟩
      refine ⟨hI, hm, hp, ?_⟩
      intro r
      simp only [hI, hm, Function.update_apply]
      by_cases ha : r = k
      · subst ha
        rw [if_pos rfl, if_pos (by omega)]
      · rw [if_neg ha, hr]
        by_cases hc : r < k
        · rw [if_pos hc, if_pos (by omega)]
        · rw [if_neg hc, if_neg]
          omega)
  obtain ⟨hI, hm, hp, hr⟩ := e
  unfold opLoad
  simp only [CHANGE_I, if_true]
  exact ⟨by simp only [hI], hm, hp, hr⟩

/-- C11: for X in 0..15 and I0 + X < 4096, `FX55` with I = I0, then zeroing all
registers and resetting I to I0, then `FX65`, restores V0..VX to their original
values; the quirk CHANGE_I being on, I equals I0 + X + 1 after each of the two
instructions, 0x304 for X = 3 and I0 = 0x300. The two instruction words sit at
pc and pc + 2, with the second one outside the bytes stored to. -/
theorem store_load_roundtrip (inp1 inp2 : Input) (s : State) (X : Nat)
    (hX : X < 16) (hI : s.I + X < 4096) (hpc : s.pc + 3 < 4096)
    (hdis : s.pc + 3 < s.I ∨ s.I + X < s.pc + 2)
    (h0 : s.mem s.pc = 0xF0 + X) (h1 : s.mem (s.pc + 1) = 0x55)
    (h2 : s.mem (s.pc + 2) = 0xF0 + X) (h3 : s.mem (s.pc + 3) = 0x65) :
    (step inp1 s).I = s.I + X + 1 ∧
    (∀ i, i ≤ X → (step inp1 s).mem (s.I + i) = s.regs i) ∧
    (step inp2 (zeroRegsSetI s.I (step inp1 s))).I = s.I + X + 1 ∧
    (∀ i, i ≤ X →
      (step inp2 (zeroRegsSetI s.I (step inp1 s))).regs i = s.regs i) ∧
    (X = 3 → s.I = 0x300 → (step inp1 s).I = 0x304 ∧
      (step inp2 (zeroRegsSetI s.I (step inp1 s))).I = 0x304) := by
  have e1 : step inp1 s = opStore X { s with pc := (s.pc + 2) % 65536 } := by
    rw [step_decode inp1 s 15 X 5 5 hX (by decide) h0 h1 (by decide) (by decide)]
    simp [execute, opF]
  obtain ⟨aI, -, apc, am⟩ := opStore_spec X { s with pc := (s.pc + 2) % 65536 }
  rw [← e1] at aI apc am
  simp only at aI apc am
  have aI' : (step inp1 s).I = s.I + X + 1 := by rw [aI]; omega
  have apc' : (step inp1 s).pc = s.pc + 2 := by rw [apc]; omega
  have astore : ∀ i, i ≤ X → (step inp1 s).mem (s.I + i) = s.regs i := by
    intro i hi
    rw [am, if_pos ⟨by omega, by omega⟩]
    congr 1
    omega
  have b0 : (step inp1 s).mem (s.pc + 2) = 16 * 15 + X := by
    rw [am, if_neg (by omega), h2]
  have b1 : (step inp1 s).mem (s.pc + 2 + 1) = 16 * 6 + 5 := by
    rw [am, if_neg (by omega), h3]
  have z0 : (zeroRegsSetI s.I (step inp1 s)).mem (zeroRegsSetI s.I (step inp1 s)).pc =
      16 * 15 + X := by
    show (step inp1 s).mem (step inp1 s).pc = 16 * 15 + X
    rw [apc']; exact b0
  have z1 : (zeroRegsSetI s.I (step inp1 s)).mem ((zeroRegsSetI s.I (step inp1 s)).pc + 1) =
      16 * 6 + 5 := by
    show (step inp1 s).mem ((step inp1 s).pc + 1) = 16 * 6 + 5
    rw [apc']; exact b1
  have e2 : step inp2 (zeroRegsSetI s.I (step inp1 s)) =
      opLoad X { zeroRegsSetI s.I (step inp1 s) with
        pc := ((zeroRegsSetI s.I (step inp1 s)).pc + 2) % 65536 } := by
    rw [step_decode inp2 _ 15 X 6 5 hX (by decide) z0 z1 (by decide) (by decide)]
    simp [execute, opF]
  obtain ⟨bI, bm, -, br⟩ := opLoad_spec X { zeroRegsSetI s.I (step inp1 s) with
        pc := ((zeroRegsSetI s.I (step inp1 s)).pc + 2) % 65536 }
  rw [← e2] at bI bm br
  have zI : (zeroRegsSetI s.I (step inp1 s)).I = s.I := rfl
  have zm : (zeroRegsSetI s.I (step inp1 s)).mem = (step inp1 s).mem := rfl
  simp only [zI, zm] at bI bm br
  have bI' : (step inp2 (zeroRegsSetI s.I (step inp1 s))).I = s.I + X + 1 := by
    rw [bI]; omega
  refine ⟨aI', astore, bI', ?_, ?_⟩
  · intro i hi
    rw [br, if_pos (by omega)]
    exact astore i hi
  · intro hX3 hI3
    rw [aI', bI', hX3, hI3]
    exact ⟨rfl, rfl⟩

theorem store_load_roundtrip_witness :
    (step quiet exBulk).I = 0x304 ∧
    (step quiet exBulk).mem (0x300 + 2) = 33 ∧
    (step quiet (zeroRegsSetI exBulk.I (step quiet exBulk))).I = 0x304 ∧
    (step quiet (zeroRegsSetI exBulk.I (step quiet exBulk))).regs 3 = 44 :=
  have h := store_load_roundtrip quiet quiet exBulk 3 (by decide) (by decide) (by decide)
    (by decide) (by decide) (by decide) (by decide) (by decide)
  ⟨(h.2.2.2.2 rfl rfl).1, h.2.1 2 (by decide), (h.2.2.2.2 rfl rfl).2, h.2.2.2.1 3 (by decide)⟩

/-! ## Call and return (`2NNN`, `00EE`) -/

theorem stackFrame_refl (s : State) : StackFrame s s :=
  ⟨rfl, rfl, rfl, rfl, rfl, rfl, rfl, rfl, rfl, rfl⟩

theorem stackFrame_trans {a b c : State} (h1 : StackFrame a b) (h2 : StackFrame b c) :
    StackFrame a c :=
  ⟨h2.mem.trans h1.mem, h2.I.trans h1.I, h2.regs.trans h1.regs, h2.grid.trans h1.grid,
   h2.pixels.trans h1.pixels, h2.delayTimer.trans h1.delayTimer,
   h2.soundTimer.trans h1.soundTimer, h2.held.trans h1.held, h2.pressed.trans h1.pressed,
   h2.running.trans h1.running⟩

/-- A call executed at address `A`. -/
theorem stepAt_call (inp : Input) (s : State) (A : Nat) (h : IsCallAt s A) :
    stepAt inp A s =
      { s with sp := (s.sp + 1) % 256,
               stack := Function.update s.stack ((s.sp + 1) % 256) ((A + 2) % 65536),
               pc := (decode (s.mem A) (s.mem (A + 1))).NNN } := by
  unfold IsCallAt at h
  unfold stepAt
  rw [step_eq_execute_decode]
  simp only [h, execute]
  simp [op2]

/-- A return executed at address `A`. -/
theorem stepAt_return (inp : Input) (s : State) (A : Nat) (h : IsReturnAt s A) :
    stepAt inp A s = { s with pc := s.stack s.sp, sp := (s.sp + 256 - 1) % 256 } := by
  obtain ⟨hc, hn⟩ := h
  unfold stepAt
  rw [step_eq_execute_decode]
  simp only [hc, hn, execute]
  simp [op0]

theorem decode_code (b0 b1 : Nat) : (decode b0 b1).code = b0 / 16 % 16 :=
  nibble1_eq b0

theorem decode_NNN (b0 b1 : Nat) : (decode b0 b1).NNN = (b0 % 16) * 256 + b1 := by
  show (_nibble2 b0 <<< 8) + b1 = (b0 % 16) * 256 + b1
  rw [nibble2_eq, Nat.shiftLeft_eq]

theorem isCallAt_of_bytes (s : State) (A NNN : Nat) (hN : NNN < 4096)
    (h0 : s.mem A = 0x20 + NNN / 256) (h1 : s.mem (A + 1) = NNN % 256) :
    IsCallAt s A ∧ (decode (s.mem A) (s.mem (A + 1))).NNN = NNN := by
  unfold IsCallAt
  rw [decode_code, decode_NNN, h0, h1]
  omega

theorem isReturnAt_of_bytes (s : State) (A : Nat)
    (h0 : s.mem A = 0x00) (h1 : s.mem (A + 1) = 0xEE) : IsReturnAt s A := by
  unfold IsReturnAt
  rw [h0, h1]
  decide

theorem isCallAt_congr {s t : State} (h : t.mem = s.mem) (A : Nat) :
    IsCallAt t A ↔ IsCallAt s A := by
  unfold IsCallAt; rw [h]

theorem isReturnAt_congr {s t : State} (h : t.mem = s.mem) (A : Nat) :
    IsReturnAt t A ↔ IsReturnAt s A := by
  unfold IsReturnAt; rw [h]

/-- Any run of calls and returns keeps the stack pointer a byte, writes no
stack slot beyond the 256 of the array, and touches nothing but `pc`, `sp` and
`stack`. -/
theorem runAt_calls_returns (inp : Input) (s : State) (site : Nat → Nat) (n : Nat)
    (hsp : s.sp < 256)
    (h : ∀ i, i < n → IsCallAt s (site i) ∨ IsReturnAt s (site i)) :
    StackFrame s (runAt inp site n s) ∧ (runAt inp site n s).sp < 256 ∧
    (∀ q, 256 ≤ q → (runAt inp site n s).stack q = s.stack q) := by
  unfold runAt
  refine forLoop_invariant (fun _ (t : State) =>
    StackFrame s t ∧ t.sp < 256 ∧ (∀ q, 256 ≤ q → t.stack q = s.stack q)) _ s n
    ⟨stackFrame_refl s, hsp, fun _ _ => rfl⟩ ?_
  rintro k t hk ⟨hf, hs, hq⟩
  rcases h k hk with hc | hr
  · rw [stepAt_call inp t (site k) ((isCallAt_congr hf.mem _).2 hc)]
    refine ⟨⟨hf.mem, hf.I, hf.regs, hf.grid, hf.pixels, hf.delayTimer, hf.soundTimer,
      hf.held, hf.pressed, hf.running⟩, Nat.mod_lt _ (by decide), ?_⟩
    intro q hq256
    have hne : q ≠ (t.sp + 1) % 256 := by omega
    simp only [Function.update_noteq hne]
    exact hq q hq256
  · rw [stepAt_return inp t (site k) ((isReturnAt_congr hf.mem _).2 hr)]
    exact ⟨⟨hf.mem, hf.I, hf.regs, hf.grid, hf.pixels, hf.delayTimer, hf.soundTimer,
      hf.held, hf.pressed, hf.running⟩, Nat.mod_lt _ (by decide), hq⟩

/-- After `k` calls in a row, `k <= 256`, the return addresses sit in the `k`
slots above the old stack pointer. -/
theorem runAt_calls (inp : Input) (s : State) (site : Nat → Nat) (k : Nat)
    (hk : k ≤ 256) (hsp : s.sp < 256)
    (h : ∀ i, i < k → IsCallAt s (site i) ∧ site i + 2 < 65536) :
    StackFrame s (runAt inp site k s) ∧ (runAt inp site k s).sp = (s.sp + k) % 256 ∧
    (∀ i, i < k → (runAt inp site k s).stack ((s.sp + 1 + i) % 256) = site i + 2) := by
  unfold runAt
  refine forLoop_invariant (fun j (t : State) =>
    StackFrame s t ∧ t.sp = (s.sp + j) % 256 ∧
    (∀ i, i < j → t.stack ((s.sp + 1 + i) % 256) = site i + 2)) _ s k
    ⟨stackFrame_refl s, by omega, fun i hi => by omega⟩ ?_
  rintro j t hj ⟨hf, hs, hst⟩
  rw [stepAt_call inp t (site j) ((isCallAt_congr hf.mem _).2 (h j hj).1)]
  refine ⟨⟨hf.mem, hf.I, hf.regs, hf.grid, hf.pixels, hf.delayTimer, hf.soundTimer,
      hf.held, hf.pressed, hf.running⟩, ?_, ?_⟩
  · show (t.sp + 1) % 256 = (s.sp + (j + 1)) % 256
    omega
  · intro i hi
    show Function.update t.stack ((t.sp + 1) % 256) ((site j + 2) % 65536)
      ((s.sp + 1 + i) % 256) = site i + 2
    by_cases hij : i = j
    · subst hij
      have e : (s.sp + 1 + i) % 256 = (t.sp + 1) % 256 := by omega
      rw [e, Function.update_same]
      have := (h i hj).2
      omega
    · have hne : (s.sp + 1 + i) % 256 ≠ (t.sp + 1) % 256 := by omega
      rw [Function.update_noteq hne]
      exact hst i (by omega)

/-- After `j` returns in a row the stack pointer has gone down by `j` (modulo
256) and `pc` holds the slot the last return read. -/
theorem runAt_returns (inp : Input) (t : State) (rsite : Nat → Nat) (j : Nat)
    (hsp : t.sp < 256) (h : ∀ i, i < j → IsReturnAt t (rsite i)) :
    StackFrame t (runAt inp rsite j t) ∧ (runAt inp rsite j t).stack = t.stack ∧
    (runAt inp rsite j t).sp = (t.sp + 255 * j) % 256 ∧
    (0 < j → (runAt inp rsite j t).pc = t.stack ((t.sp + 255 * (j - 1)) % 256)) := by
  unfold runAt
  refine forLoop_invariant (fun m (u : State) =>
    StackFrame t u ∧ u.stack = t.stack ∧ u.sp = (t.sp + 255 * m) % 256 ∧
    (0 < m → u.pc = t.stack ((t.sp + 255 * (m - 1)) % 256))) _ t j
    ⟨stackFrame_refl t, rfl, by omega, fun h0 => by omega⟩ ?_
  rintro m u hm ⟨hf, hst, hs, -⟩
  rw [stepAt_return inp u (rsite m) ((isReturnAt_congr hf.mem _).2 (h m hm))]
  refine ⟨⟨hf.mem, hf.I, hf.regs, hf.grid, hf.pixels, hf.delayTimer, hf.soundTimer,
      hf.held, hf.pressed, hf.running⟩, hst, ?_, ?_⟩
  · show (u.sp + 256 - 1) % 256 = (t.sp + 255 * (m + 1)) % 256
    omega
  · intro _
    show u.stack u.sp = t.stack ((t.sp + 255 * (m + 1 - 1)) % 256)
    rw [hst, hs]
    rfl

/-- C12: a call `2NNN` at address A sets PC to NNN and pushes A + 2; a return
`00EE` executed immediately afterwards sets PC to A + 2 and restores the stack
pointer. After k calls in a row (k <= 256, the i-th at address `site i`)
followed by returns, the (j+1)-th return sets PC to the return address of call
k - 1 - j, and after k returns the stack pointer is back at its value before the
first call. -/
theorem call_return_stack (inp1 inp2 : Input) (s : State) (NNN : Nat)
    (hN : NNN < 4096) (hpc : s.pc + 1 < 4096) (hsp : s.sp < 256)
    (h0 : s.mem s.pc = 0x20 + NNN / 256) (h1 : s.mem (s.pc + 1) = NNN % 256)
    (r0 : s.mem NNN = 0x00) (r1 : s.mem (NNN + 1) = 0xEE) :
    (step inp1 s).pc = NNN ∧ (step inp1 s).sp = (s.sp + 1) % 256 ∧
    (step inp1 s).stack (step inp1 s).sp = s.pc + 2 ∧
    (step inp2 (step inp1 s)).pc = s.pc + 2 ∧ (step inp2 (step inp1 s)).sp = s.sp ∧
    (∀ (inp : Input) (site target rsite : Nat → Nat) (k : Nat), k ≤ 256 →
      (∀ i, i < k → site i + 1 < 4096 ∧ target i < 4096 ∧
        s.mem (site i) = 0x20 + target i / 256 ∧ s.mem (site i + 1) = target i % 256) →
      (∀ i, i < k → s.mem (rsite i) = 0x00 ∧ s.mem (rsite i + 1) = 0xEE) →
      (∀ j, j < k →
        (runAt inp rsite (j + 1) (runAt inp site k s)).pc = site (k - 1 - j) + 2) ∧
      (runAt inp rsite k (runAt inp site k s)).sp = s.sp) := by
  obtain ⟨c1, c2⟩ := isCallAt_of_bytes s s.pc NNN hN h0 h1
  have e1 : step inp1 s =
      { s with sp := (s.sp + 1) % 256,
               stack := Function.update s.stack ((s.sp + 1) % 256) ((s.pc + 2) % 65536),
               pc := NNN } := by
    have := stepAt_call inp1 s s.pc c1
    rw [c2] at this
    exact this
  have hmod : (s.pc + 2) % 65536 = s.pc + 2 := by omega
  have hret : IsReturnAt (step inp1 s) NNN := by
    rw [e1]
    exact isReturnAt_of_bytes _ NNN r0 r1
  have e2 : step inp2 (step inp1 s) =
      { step inp1 s with pc := (step inp1 s).stack (step inp1 s).sp,
                         sp := ((step inp1 s).sp + 256 - 1) % 256 } := by
    have := stepAt_return inp2 (step inp1 s) NNN hret
    have hp : (step inp1 s).pc = NNN := by rw [e1]
    unfold stepAt at this
    rw [← hp] at this
    exact this
  have top : (step inp1 s).stack (step inp1 s).sp = s.pc + 2 := by
    rw [e1]
    simp [hmod]
  refine ⟨by rw [e1], by rw [e1], top, ?_, ?_, ?_⟩
  · rw [e2]
    exact top
  · rw [e2]
    show ((step inp1 s).sp + 256 - 1) % 256 = s.sp
    rw [e1]
    show ((s.sp + 1) % 256 + 256 - 1) % 256 = s.sp
    omega
  · intro inp site target rsite k hk hcalls hrets
    obtain ⟨cf, csp, cst⟩ := runAt_calls inp s site k hk hsp (fun i hi =>
      ⟨(isCallAt_of_bytes s (site i) (target i) (hcalls i hi).2.1 (hcalls i hi).2.2.1
        (hcalls i hi).2.2.2).1, by have := (hcalls i hi).1; omega⟩)
    have hsp' : (runAt inp site k s).sp < 256 := by rw [csp]; exact Nat.mod_lt _ (by decide)
    have hr : ∀ i, i < k → IsReturnAt (runAt inp site k s) (rsite i) := fun i hi =>
      (isReturnAt_congr cf.mem _).2 (isReturnAt_of_bytes s (rsite i) (hrets i hi).1 (hrets i hi).2)
    constructor
    · intro j hj
      obtain ⟨-, -, -, rpc⟩ := runAt_returns inp (runAt inp site k s) rsite (j + 1) hsp'
        (fun i hi => hr i (by omega))
      rw [rpc (by omega), csp]
      have e : ((s.sp + k) % 256 + 255 * (j + 1 - 1)) % 256 = (s.sp + 1 + (k - 1 - j)) % 256 := by
        omega
      rw [e]
      exact cst (k - 1 - j) (by omega)
    · obtain ⟨-, -, rsp, -⟩ := runAt_returns inp (runAt inp site k s) rsite k hsp' hr
      rw [rsp, csp]
      omega

theorem call_return_stack_witness :
    (step quiet exCalls).pc = 0x208 ∧ (step quiet exCalls).sp = 8 ∧
    (step quiet exCalls).stack 8 = 0x202 ∧
    (step quiet (step quiet exCalls)).pc = 0x202 ∧ (step quiet (step quiet exCalls)).sp = 7 ∧
    (runAt quiet (fun i => if i = 0 then 0x208 else 0x206) 1
      (runAt quiet (fun i => if i = 0 then 0x202 else 0x204) 2 exCalls)).pc = 0x206 ∧
    (runAt quiet (fun i => if i = 0 then 0x208 else 0x206) 2
      (runAt quiet (fun i => if i = 0 then 0x202 else 0x204) 2 exCalls)).pc = 0x204 ∧
    (runAt quiet (fun i => if i = 0 then 0x208 else 0x206) 2
      (runAt quiet (fun i => if i = 0 then 0x202 else 0x204) 2 exCalls)).sp = 7 :=
  have h := call_return_stack quiet quiet exCalls 0x208 (by decide) (by decide) (by decide)
    (by decide) (by decide) (by decide) (by decide)
  have g := h.2.2.2.2.2 quiet (fun i => if i = 0 then 0x202 else 0x204)
    (fun i => if i = 0 then 0x204 else 0x208) (fun i => if i = 0 then 0x208 else 0x206) 2
    (by decide) (by decide) (by decide)
  ⟨h.1, h.2.1, h.2.2.1, h.2.2.2.1, h.2.2.2.2.1, g.1 0 (by decide), g.1 1 (by decide), g.2⟩

/-- C20: with an 8-bit stack pointer, a call writes stack slot (sp + 1) mod 256
and a return reads slot sp, both in 0..255: a call at sp = 255 writes slot 0, a
return at sp = 0 reads slot 0 and leaves sp = 255. Over every sequence of calls
and returns the stack pointer stays in 0..255, no slot beyond the 256 of the
array is written, and memory, registers, I, the bitmap and the timers are not
modified. -/
theorem stack_pointer_wraps (inp : Input) (s : State) (hsp : s.sp < 256) :
    (∀ A, IsCallAt s A →
      (stepAt inp A s).stack =
        Function.update s.stack ((s.sp + 1) % 256) ((A + 2) % 65536) ∧
      (s.sp + 1) % 256 < 256 ∧
      (stepAt inp A s).sp = (s.sp + 1) % 256 ∧
      (s.sp = 255 → (stepAt inp A s).sp = 0 ∧ (stepAt inp A s).stack 0 = (A + 2) % 65536) ∧
      StackFrame s (stepAt inp A s)) ∧
    (∀ A, IsReturnAt s A →
      (stepAt inp A s).pc = s.stack s.sp ∧
      (stepAt inp A s).sp = (s.sp + 255) % 256 ∧
      (s.sp = 0 → (stepAt inp A s).pc = s.stack 0 ∧ (stepAt inp A s).sp = 255) ∧
      (stepAt inp A s).stack = s.stack ∧
      StackFrame s (stepAt inp A s)) ∧
    (∀ (site : Nat → Nat) (n : Nat),
      (∀ i, i < n → IsCallAt s (site i) ∨ IsReturnAt s (site i)) →
      (runAt inp site n s).sp < 256 ∧
      (∀ q, 256 ≤ q → (runAt inp site n s).stack q = s.stack q) ∧
      (runAt inp site n s).mem = s.mem ∧ (runAt inp site n s).regs = s.regs ∧
      (runAt inp site n s).I = s.I ∧ (runAt inp site n s).grid = s.grid ∧
      (runAt inp site n s).delayTimer = s.delayTimer ∧
      (runAt inp site n s).soundTimer = s.soundTimer) := by
  refine ⟨?_, ?_, ?_⟩
  · intro A hA
    rw [stepAt_call inp s A hA]
    refine ⟨rfl, Nat.mod_lt _ (by decide), rfl, ?_,
      ⟨rfl, rfl, rfl, rfl, rfl, rfl, rfl, rfl, rfl, rfl⟩⟩
    intro h255
    have e : (s.sp + 1) % 256 = 0 := by omega
    exact ⟨e, by show Function.update s.stack ((s.sp + 1) % 256) ((A + 2) % 65536) 0 = _
                 rw [e, Function.update_same]⟩
  · intro A hA
    rw [stepAt_return inp s A hA]
    refine ⟨rfl, ?_, ?_, rfl, ⟨rfl, rfl, rfl, rfl, rfl, rfl, rfl, rfl, rfl, rfl⟩⟩
    · show (s.sp + 256 - 1) % 256 = (s.sp + 255) % 256
      omega
    · intro h0
      simp [h0]
  · intro site n h
    obtain ⟨f, hs, hq⟩ := runAt_calls_returns inp s site n hsp h
    exact ⟨hs, hq, f.mem, f.regs, f.I, f.grid, f.delayTimer, f.soundTimer⟩

theorem stack_pointer_wraps_witness :
    ((stepAt quiet 0x200 exCallsTop).sp = 0 ∧ (stepAt quiet 0x200 exCallsTop).stack 0 = 0x202) ∧
    ((stepAt quiet 0x208 exCallsBottom).pc = 0x345 ∧
      (stepAt quiet 0x208 exCallsBottom).sp = 255) ∧
    ((runAt quiet (fun i => if i = 0 then 0x208 else 0x200) 2 exCallsBottom).sp < 256 ∧
      (runAt quiet (fun i => if i = 0 then 0x208 else 0x200) 2 exCallsBottom).regs =
        exCallsBottom.regs) :=
  have ht := stack_pointer_wraps quiet exCallsTop (by decide)
  have hb := stack_pointer_wraps quiet exCallsBottom (by decide)
  have g := hb.2.2 (fun i => if i = 0 then 0x208 else 0x200) 2 (by decide)
  ⟨(ht.1 0x200 (by decide)).2.2.2.1 rfl, (hb.2.1 0x208 (by decide)).2.2.1 rfl,
   g.1, g.2.2.2.1⟩

end Chip8
